import Mathlib

set_option maxRecDepth 8000

/-! # Verification of the structured local data store (`src/shared/dm.js`)

This file shallowly embeds the data-store module of the repository: a
localStorage-backed store organized as module → key → value, serialized as a
single JSON document under one fixed storage key, with JSON import/export.

Embedding choices (the JavaScript host semantics is modelled as follows):

* JSON values are the inductive `JVal`.  JSON numbers are modelled as integers
  (`Int`); fractional and exponent literals of JSON, and JavaScript's
  floating-point number formatting, are outside the embedding.  None of the
  store's code manipulates numbers, it only passes them through.
* The contents of the storage slot `localStorage['testAppData']` is an
  `Option String` (`none` = key absent).  `localStorage.getItem` returning
  `null` and the empty string are both falsy in JS, matching `getStore`.
* JavaScript objects are modelled as association lists in insertion order.
  Property assignment replaces in place or appends (`objSet`), `delete`
  removes (`objDel`), lookup takes the first hit (`objGet`).  Two deliberate,
  inessential deviations from the JS host, documented here once:
  (1) JS enumerates integer-like property keys numerically before all other
  keys; the embedding keeps pure insertion order, which agrees with JS
  whenever no key is the decimal form of an array index (true of every input
  appearing in the claims and in the spec's examples);
  (2) `JSON.parse` resolves duplicate object keys (last value wins); the
  embedding's grammar keeps duplicates.  The two coincide on every document
  without duplicate keys, in particular on everything the store itself writes.
* Strings are Lean `String`s (sequences of unicode scalars); JavaScript's
  UTF-16 surrogate pairs are outside the embedding, and a `\uXXXX` escape
  denoting a surrogate code unit parses to `Char.ofNat`'s default.
* The store's own writes happen only through `saveStore`, whose
  `localStorage.setItem` either succeeds or throws; the environment's verdict
  is passed in as a `writeOk : Bool` argument.  Likewise the `FileReader` in
  `loadDataFromJson` is passed in as the file's contents (`Option String`)
  plus a `readOk : Bool` for its error event.
* Property access on truthy non-object values: reading yields `undefined` and
  assigning is mapped to the explicit marker error `DmErr.jsEdge` (in strict
  mode JS, assignment to a property of a primitive throws `TypeError`; on an
  array it would create an index/expando property).  Such module values can
  only enter the store by importing a document whose module values are not
  mappings, which the spec's data model excludes; no claim depends on them,
  and every theorem below states its hypotheses so that this marker is never
  reached.
-/

/-- JSON values, as produced by `JSON.parse` (numbers restricted to integers). -/
inductive JVal where
  | null : JVal
  | bool (b : Bool) : JVal
  | num (n : Int) : JVal
  | str (s : String) : JVal
  | arr (xs : List JVal) : JVal
  | obj (kvs : List (String × JVal)) : JVal

mutual

/-- Structural size of a JSON value, used as fuel bounds. -/
def jsize : JVal → Nat
  | .null => 1
  | .bool _ => 1
  | .num _ => 1
  | .str _ => 1
  | .arr xs => 1 + jsizeA xs
  | .obj kvs => 1 + jsizeM kvs

/-- Size of a list of array elements. -/
def jsizeA : List JVal → Nat
  | [] => 0
  | x :: t => 1 + jsize x + jsizeA t

/-- Size of a list of object members. -/
def jsizeM : List (String × JVal) → Nat
  | [] => 0
  | kv :: t => 1 + jsize kv.2 + jsizeM t

end

/-! ## Characters, digits, whitespace -/

/-- The four JSON whitespace characters (space, tab, line feed, carriage return). -/
def wsChar (c : Char) : Bool :=
  c.toNat = 32 || c.toNat = 9 || c.toNat = 10 || c.toNat = 13

/-- Drop leading JSON whitespace. -/
def skipWs : List Char → List Char
  | [] => []
  | c :: t => if wsChar c then skipWs t else c :: t

/-- ASCII decimal digit test. -/
def isDig (c : Char) : Bool := 48 ≤ c.toNat && c.toNat ≤ 57

/-- The decimal digit character for `d < 10`. -/
def digitChar (d : Nat) : Char := Char.ofNat (48 + d)

/-- Numeric value of a decimal digit character. -/
def digVal (c : Char) : Nat := c.toNat - 48

/-- Lowercase hexadecimal digit character for `d < 16` (as `JSON.stringify` emits). -/
def hexDigitChar (d : Nat) : Char :=
  if d < 10 then Char.ofNat (48 + d) else Char.ofNat (87 + d)

/-- Value of a hexadecimal digit character, accepting both cases. -/
def hexVal (c : Char) : Option Nat :=
  if 48 ≤ c.toNat ∧ c.toNat ≤ 57 then some (c.toNat - 48)
  else if 97 ≤ c.toNat ∧ c.toNat ≤ 102 then some (c.toNat - 87)
  else if 65 ≤ c.toNat ∧ c.toNat ≤ 70 then some (c.toNat - 55)
  else none

/-- Decimal digits of `n`, most significant first, with explicit fuel so that
the definition is structural.  `natCharsF (n+1) n` always has enough fuel. -/
def natCharsF : Nat → Nat → List Char
  | 0, _ => []
  | f + 1, n => if n < 10 then [digitChar n] else natCharsF f (n / 10) ++ [digitChar (n % 10)]

/-- Decimal digits of a natural number, most significant first. -/
def natChars (n : Nat) : List Char := natCharsF (n + 1) n

/-- The characters `JSON.stringify` emits for an integer. -/
def intChars (n : Int) : List Char :=
  if n < 0 then '-' :: natChars n.natAbs else natChars n.toNat

/-- Numeric value of a list of decimal digit characters. -/
def digitsVal (ds : List Char) : Nat := ds.foldl (fun a c => a * 10 + digVal c) 0

/-- Split a maximal leading run of decimal digits from the input. -/
def splitDigits : List Char → List Char × List Char
  | [] => ([], [])
  | c :: t =>
    if isDig c then
      let p := splitDigits t
      (c :: p.1, p.2)
    else ([], c :: t)

/-- A forbidden leading zero: a digit run starting with `0` that has more digits. -/
def lead0 : List Char → Bool
  | c :: _ :: _ => decide (c = '0')
  | _ => false

/-! ## String escaping (`QuoteJSONString`, as used by `JSON.stringify`) -/

/-- Escape a single character the way `JSON.stringify` quotes string contents. -/
def escChar (c : Char) : List Char :=
  if c = '"' then ['\\', '"']
  else if c = '\\' then ['\\', '\\']
  else if c.toNat = 8 then ['\\', 'b']
  else if c.toNat = 12 then ['\\', 'f']
  else if c = '\n' then ['\\', 'n']
  else if c.toNat = 13 then ['\\', 'r']
  else if c = '\t' then ['\\', 't']
  else if c.toNat < 32 then
    '\\' :: 'u' :: '0' :: '0' :: [hexDigitChar (c.toNat / 16), hexDigitChar (c.toNat % 16)]
  else [c]

/-- Escape every character of a string body. -/
def escStr : List Char → List Char
  | [] => []
  | c :: t => escChar c ++ escStr t

/-! ## Serialization (`JSON.stringify(v)` and `JSON.stringify(v, null, indent)`)

`indent = 0` is the compact form; `indent = 2` matches
`JSON.stringify(dataToExport, null, 2)` in `getExportableJson`. -/

/-- The line break plus indentation emitted before an item at nesting level
`lvl` when pretty-printing; nothing in compact mode. -/
def nlInd (indent lvl : Nat) : List Char :=
  if indent = 0 then [] else '\n' :: List.replicate (indent * lvl) ' '

/-- The key/value separator: `:` compact, `: ` pretty. -/
def colonSep (indent : Nat) : List Char :=
  if indent = 0 then [':'] else [':', ' ']

mutual

/-- Serialize a JSON value at nesting level `lvl`. -/
def serVal (indent lvl : Nat) : JVal → List Char
  | .null => 'n' :: ['u', 'l', 'l']
  | .bool true => 't' :: ['r', 'u', 'e']
  | .bool false => 'f' :: ['a', 'l', 's', 'e']
  | .num n => intChars n
  | .str s => '"' :: (escStr s.data ++ ['"'])
  | .arr [] => ['[', ']']
  | .arr (x :: xs) =>
    '[' :: (nlInd indent (lvl + 1) ++ serVal indent (lvl + 1) x ++
      serItems indent (lvl + 1) xs ++ nlInd indent lvl ++ [']'])
  | .obj [] => ['{', '}']
  | .obj (kv :: kvs) =>
    '{' :: (nlInd indent (lvl + 1) ++ serMember indent (lvl + 1) kv ++
      serMembers indent (lvl + 1) kvs ++ nlInd indent lvl ++ ['}'])

/-- Serialize the remaining elements of a nonempty array, each preceded by `,`. -/
def serItems (indent lvl : Nat) : List JVal → List Char
  | [] => []
  | x :: xs => ',' :: (nlInd indent lvl ++ serVal indent lvl x ++ serItems indent lvl xs)

/-- Serialize one object member `"key": value`. -/
def serMember (indent lvl : Nat) (kv : String × JVal) : List Char :=
  '"' :: (escStr kv.1.data ++ ['"']) ++ colonSep indent ++ serVal indent lvl kv.2

/-- Serialize the remaining members of a nonempty object, each preceded by `,`. -/
def serMembers (indent lvl : Nat) : List (String × JVal) → List Char
  | [] => []
  | kv :: kvs => ',' :: (nlInd indent lvl ++ serMember indent lvl kv ++ serMembers indent lvl kvs)

end

/-- `JSON.stringify(v)` — the compact serialization used by `saveStore`. -/
def stringifyCompact (v : JVal) : String := String.mk (serVal 0 0 v)

/-- `JSON.stringify(v, null, 2)` — the export serialization. -/
def stringifyPretty2 (v : JVal) : String := String.mk (serVal 2 0 v)

/-! ## Parsing (`JSON.parse`)

A recursive-descent parser over the character list, with a fuel argument so
that all recursion is structural.  The fuel only bounds the nesting of
recursive values; `parseJson` supplies `length + 1`, which is always enough
(proved below via `jsize`). -/

/-- Prepend a character to the string being accumulated by `parseStrBody`. -/
def mapCons (c : Char) : Option (List Char × List Char) → Option (List Char × List Char)
  | some (cs, r) => some (c :: cs, r)
  | none => none

/-- Parse the body of a JSON string literal after the opening quote, returning
the unescaped characters and the input after the closing quote. -/
def parseStrBody : List Char → Option (List Char × List Char)
  | [] => none
  | c :: r =>
    if c = '"' then some ([], r)
    else if c = '\\' then
      match r with
      | [] => none
      | e :: r2 =>
        if e = '"' then mapCons '"' (parseStrBody r2)
        else if e = '\\' then mapCons '\\' (parseStrBody r2)
        else if e = '/' then mapCons '/' (parseStrBody r2)
        else if e = 'b' then mapCons (Char.ofNat 8) (parseStrBody r2)
        else if e = 'f' then mapCons (Char.ofNat 12) (parseStrBody r2)
        else if e = 'n' then mapCons '\n' (parseStrBody r2)
        else if e = 'r' then mapCons (Char.ofNat 13) (parseStrBody r2)
        else if e = 't' then mapCons '\t' (parseStrBody r2)
        else if e = 'u' then
          match r2 with
          | h1 :: h2 :: h3 :: h4 :: r3 =>
            match hexVal h1, hexVal h2, hexVal h3, hexVal h4 with
            | some a, some b, some c3, some d =>
              mapCons (Char.ofNat (((a * 16 + b) * 16 + c3) * 16 + d)) (parseStrBody r3)
            | _, _, _, _ => none
          | _ => none
        else none
    else if c.toNat < 32 then none
    else mapCons c (parseStrBody r)

/-- Head test for the dispatch on already-whitespace-skipped input. -/
def headIs : List Char → Char → Bool
  | [], _ => false
  | c :: _, d => c = d

mutual

/-- Parse one JSON value from input whose leading whitespace has been skipped. -/
def parseValCore : Nat → List Char → Option (JVal × List Char)
  | _, [] => none
  | f, c :: r =>
    if c = 'n' then
      match r with
      | 'u' :: 'l' :: 'l' :: r' => some (.null, r')
      | _ => none
    else if c = 't' then
      match r with
      | 'r' :: 'u' :: 'e' :: r' => some (.bool true, r')
      | _ => none
    else if c = 'f' then
      match r with
      | 'a' :: 'l' :: 's' :: 'e' :: r' => some (.bool false, r')
      | _ => none
    else if c = '"' then
      match parseStrBody r with
      | some (cs, r') => some (.str (String.mk cs), r')
      | none => none
    else if c = '[' then
      let w := skipWs r
      if headIs w ']' then some (.arr [], w.tail)
      else
        match f with
        | 0 => none
        | g + 1 =>
          match parseItems g w with
          | some (vs, r') => some (.arr vs, r')
          | none => none
    else if c = '{' then
      let w := skipWs r
      if headIs w '}' then some (.obj [], w.tail)
      else
        match f with
        | 0 => none
        | g + 1 =>
          match parseMembers g w with
          | some (kvs, r') => some (.obj kvs, r')
          | none => none
    else if c = '-' then
      let p := splitDigits r
      if p.1.isEmpty || lead0 p.1 then none
      else some (.num (-(Int.ofNat (digitsVal p.1))), p.2)
    else if isDig c then
      let p := splitDigits (c :: r)
      if lead0 p.1 then none else some (.num (Int.ofNat (digitsVal p.1)), p.2)
    else none

/-- Parse the members of an object after `{`, input whitespace-skipped. -/
def parseMembers : Nat → List Char → Option (List (String × JVal) × List Char)
  | 0, _ => none
  | f + 1, input =>
    match input with
    | '"' :: r =>
      match parseStrBody r with
      | some (kcs, r1) =>
        let w1 := skipWs r1
        if headIs w1 ':' then
          match parseValCore f (skipWs w1.tail) with
          | some (v, r3) =>
            let w := skipWs r3
            if headIs w ',' then
              match parseMembers f (skipWs w.tail) with
              | some (kvs, r5) => some ((String.mk kcs, v) :: kvs, r5)
              | none => none
            else if headIs w '}' then some ([(String.mk kcs, v)], w.tail)
            else none
          | none => none
        else none
      | none => none
    | _ => none

/-- Parse the elements of an array after `[`, input whitespace-skipped. -/
def parseItems : Nat → List Char → Option (List JVal × List Char)
  | 0, _ => none
  | f + 1, input =>
    match parseValCore f (skipWs input) with
    | some (v, r) =>
      let w := skipWs r
      if headIs w ',' then
        match parseItems f (skipWs w.tail) with
        | some (vs, r3) => some (v :: vs, r3)
        | none => none
      else if headIs w ']' then some ([v], w.tail)
      else none
    | none => none

end

/-- `JSON.parse`: parse a whole document, requiring only whitespace after the
value.  `none` models a thrown `SyntaxError`. -/
def parseJson (s : String) : Option JVal :=
  match parseValCore (s.data.length + 1) (skipWs s.data) with
  | some (v, rest) => if skipWs rest = [] then some v else none
  | none => none

/-! ## JavaScript object operations on the association-list model -/

/-- Property lookup `o[k]` (`none` = `undefined`). -/
def objGet : List (String × JVal) → String → Option JVal
  | [], _ => none
  | (k', v) :: t, k => if k' = k then some v else objGet t k

/-- Property assignment `o[k] = v`: replaces in place, or appends a new key. -/
def objSet : List (String × JVal) → String → JVal → List (String × JVal)
  | [], k, v => [(k, v)]
  | (k', v') :: t, k, v => if k' = k then (k, v) :: t else (k', v') :: objSet t k v

/-- Property deletion `delete o[k]`. -/
def objDel : List (String × JVal) → String → List (String × JVal)
  | [], _ => []
  | (k', v') :: t, k => if k' = k then t else (k', v') :: objDel t k

/-- JavaScript truthiness of a JSON value (`NaN` cannot arise: numbers are integers). -/
def jsTruthy : JVal → Bool
  | .null => false
  | .bool b => b
  | .num n => decide (n ≠ 0)
  | .str s => decide (s ≠ "")
  | .arr _ => true
  | .obj _ => true

/-- The keys of an association list, in order. -/
def keysOf (l : List (String × JVal)) : List String := l.map Prod.fst

/-- No key occurs twice — true of every real JavaScript object, stated
explicitly because the embedding's association lists are a wider type. -/
def NodupKeys (l : List (String × JVal)) : Prop := (keysOf l).Nodup

/-! ## The data store (`src/shared/dm.js`) -/

/-- The contents of `localStorage['testAppData']` (`none` = key absent). -/
def Slot : Type := Option String

/-- Errors thrown / promise rejections surfaced by the store. -/
inductive DmErr where
  /-- `Error("Module and Key are required…")` from `setItem` / `deleteItem` / `getItem`. -/
  | invalidArgument (msg : String) : DmErr
  /-- `Error("Could not save data. Storage might be full.")` rethrown by `saveStore`. -/
  | storageFull : DmErr
  /-- `SyntaxError` from `JSON.parse` inside `loadDataFromJson`. -/
  | parseErr : DmErr
  /-- `Error("Invalid JSON format. The root must be an object.")`. -/
  | formatErr : DmErr
  /-- `Error("No file provided.")`. -/
  | noFile : DmErr
  /-- The `FileReader`'s `onerror` rejection. -/
  | readErr : DmErr
  /-- Marker for property assignment on a truthy non-object (see header comment). -/
  | jsEdge : DmErr
deriving DecidableEq

/-- `getStore`: read and parse the slot; lenient on every failure.  The JS
checks `typeof parsed === 'object' && parsed !== null && !Array.isArray(parsed)`,
so only a plain object survives; `data ? JSON.parse(data) : {}` makes a
missing key and the empty string yield `{}` without parsing. -/
def getStore : Slot → List (String × JVal)
  | none => []
  | some s =>
    if s = "" then []
    else
      match parseJson s with
      | some (.obj kvs) => kvs
      | _ => []

/-- `saveStore`: serialize and write; the environment's verdict on
`localStorage.setItem` is the `writeOk` argument, a rejected write becomes the
rethrown storage error. -/
def saveStore (writeOk : Bool) (data : List (String × JVal)) : Except DmErr String :=
  if writeOk then .ok (stringifyCompact (.obj data)) else .error .storageFull

/-- Result of a store operation: the outcome and the slot afterwards. -/
def finishSave (writeOk : Bool) (slot : Slot) (data : List (String × JVal)) :
    Except DmErr Unit × Slot :=
  match saveStore writeOk data with
  | .ok s => (.ok (), some s)
  | .error e => (.error e, slot)

/-- `dataManager.setItem(module, key, value)`. -/
def setItem (writeOk : Bool) (module key : String) (value : JVal) (slot : Slot) :
    Except DmErr Unit × Slot :=
  if module = "" || key = "" then
    (.error (.invalidArgument "Module and Key are required."), slot)
  else
    let store := getStore slot
    match objGet store module with
    | some v =>
      if jsTruthy v then
        match v with
        | .obj m => finishSave writeOk slot (objSet store module (.obj (objSet m key value)))
        | _ => (.error .jsEdge, slot)
      else
        -- `!store[module]` also fires on a falsy present value, replacing it by `{}`
        finishSave writeOk slot (objSet store module (.obj [(key, value)]))
    | none => finishSave writeOk slot (objSet store module (.obj [(key, value)]))

/-- `dataManager.deleteItem(module, key)`.  The guard is
`store[module] && store[module][key] !== undefined`; when it fails the call
returns without touching storage. -/
def deleteItem (writeOk : Bool) (module key : String) (slot : Slot) :
    Except DmErr Unit × Slot :=
  if module = "" || key = "" then
    (.error (.invalidArgument "Module and Key are required to delete an item."), slot)
  else
    let store := getStore slot
    match objGet store module with
    | some (.obj m) =>
      if (objGet m key).isSome then
        let m' := objDel m key
        if m'.length = 0 then finishSave writeOk slot (objDel store module)
        else finishSave writeOk slot (objSet store module (.obj m'))
      else (.ok (), slot)
    | some _ => (.ok (), slot)
    | none => (.ok (), slot)

/-- `dataManager.getAllItems()`. -/
def getAllItems (slot : Slot) : List (String × JVal) := getStore slot

/-- `dataManager.getItem(module, key)` — `store[module]?.[key]`;
`none` models `undefined`. -/
def getItem (module key : String) (slot : Slot) :
    Except DmErr (Option JVal) × Slot :=
  if module = "" || key = "" then
    (.error (.invalidArgument "Module and Key are required to get an item."), slot)
  else
    let store := getStore slot
    (.ok (match objGet store module with
          | some (.obj m) => objGet m key
          | _ => none), slot)

/-- `dataManager.clearAllItems()`. -/
def clearAllItems (writeOk : Bool) (slot : Slot) : Except DmErr Unit × Slot :=
  finishSave writeOk slot []

/-- The default display labels synthesized by `getExportableJson`. -/
def defaultLabels : JVal :=
  .obj [("module", .str "Module"), ("key", .str "Key"), ("value", .str "Item")]

/-- `dataManager.getExportableJson()`: destructure `_schema` out, default its
`labels` when falsy/absent, and serialize with the schema first.  The result is
the file contents (the `Blob`'s text) and the suggested filename. -/
def getExportableJson (slot : Slot) : Except DmErr (String × String) × Slot :=
  let store := getStore slot
  let data := objDel store "_schema"
  let finalSchema : JVal :=
    match objGet store "_schema" with
    | some v => if jsTruthy v then v else .obj []
    | none => .obj []
  match finalSchema with
  | .obj skvs =>
    let skvs' :=
      match objGet skvs "labels" with
      | some lv => if jsTruthy lv then skvs else objSet skvs "labels" defaultLabels
      | none => objSet skvs "labels" defaultLabels
    (.ok (stringifyPretty2 (.obj (("_schema", .obj skvs') :: data)), "datastore.json"), slot)
  | .arr xs =>
    -- `finalSchema.labels = {...}` on an array creates a non-index property,
    -- which `JSON.stringify` then ignores: the exported schema is the array.
    (.ok (stringifyPretty2 (.obj (("_schema", .arr xs) :: data)), "datastore.json"), slot)
  | _ => (.error .jsEdge, slot)

/-- `dataManager.loadDataFromJson(file)`: reject on a missing file before any
read; then read (`readOk` = the `FileReader` outcome), parse, require a plain
object root, and replace the whole store via `saveStore`. -/
def loadDataFromJson (readOk writeOk : Bool) (file : Option String) (slot : Slot) :
    Except DmErr Unit × Slot :=
  match file with
  | none => (.error .noFile, slot)
  | some content =>
    if readOk then
      match parseJson content with
      | none => (.error .parseErr, slot)
      | some j =>
        match j with
        | .obj kvs => finishSave writeOk slot kvs
        | _ => (.error .formatErr, slot)
    else (.error .readErr, slot)

/-! ## Reachable store states -/

/-- Slot states reachable from the empty store via `setItem` / `deleteItem`
calls (any arguments, any write outcome, failed calls included — a failed call
leaves the slot as it was). -/
inductive ReachSD : Slot → Prop where
  | init : ReachSD none
  | set (w : Bool) (m k : String) (v : JVal) {s : Slot} :
      ReachSD s → ReachSD (setItem w m k v s).2
  | del (w : Bool) (m k : String) {s : Slot} :
      ReachSD s → ReachSD (deleteItem w m k s).2

/-- Slot states reachable from the empty store via `setItem`, `deleteItem`
and `clearAllItems`. -/
inductive ReachSDC : Slot → Prop where
  | init : ReachSDC none
  | set (w : Bool) (m k : String) (v : JVal) {s : Slot} :
      ReachSDC s → ReachSDC (setItem w m k v s).2
  | del (w : Bool) (m k : String) {s : Slot} :
      ReachSDC s → ReachSDC (deleteItem w m k s).2
  | clear (w : Bool) {s : Slot} :
      ReachSDC s → ReachSDC (clearAllItems w s).2

/-! ## Helper notions used by theorem statements -/

/-- `true` when the input does not start with a decimal digit (the context the
serializer guarantees after a serialized number). -/
def headNotDigit : List Char → Bool
  | [] => true
  | c :: _ => !(isDig c)

/-- What `getExportableJson` turns a schema object's members into: `labels` is
left alone when present and truthy, otherwise set to `defaultLabels`. -/
def fixLabels (skvs : List (String × JVal)) : List (String × JVal) :=
  match objGet skvs "labels" with
  | some lv => if jsTruthy lv then skvs else objSet skvs "labels" defaultLabels
  | none => objSet skvs "labels" defaultLabels

/-- The invariant of states reachable via `setItem` / `deleteItem` /
`clearAllItems`: keys are unique and every top-level value is a nonempty
mapping with unique keys. -/
def GoodStore (l : List (String × JVal)) : Prop :=
  NodupKeys l ∧ ∀ k v, objGet l k = some v → ∃ m, v = JVal.obj m ∧ m ≠ [] ∧ NodupKeys m

/-! # Theorems -/

/-! ## Association-list lemmas -/

theorem keysOf_cons (a : String) (b : JVal) (t : List (String × JVal)) :
    keysOf ((a, b) :: t) = a :: keysOf t := rfl

theorem objGet_objSet_self (l : List (String × JVal)) (k : String) (v : JVal) :
    objGet (objSet l k v) k = some v := by
  induction l with
  | nil => simp [objSet, objGet]
  | cons kv t ih =>
    obtain ⟨k', v'⟩ := kv
    by_cases h : k' = k
    · simp [objSet, h, objGet]
    · simp [objSet, h, objGet, ih]

theorem objGet_objSet_ne (l : List (String × JVal)) (k k' : String) (v : JVal)
    (h : k' ≠ k) : objGet (objSet l k v) k' = objGet l k' := by
  have hne : ¬(k = k') := fun e => h e.symm
  induction l with
  | nil => simp [objSet, objGet, hne]
  | cons kv t ih =>
    obtain ⟨k0, v0⟩ := kv
    by_cases h0 : k0 = k
    · subst h0
      simp [objSet, objGet, hne]
    · simp [objSet, h0, objGet, ih]

theorem objGet_objDel_ne (l : List (String × JVal)) (k k' : String)
    (h : k' ≠ k) : objGet (objDel l k) k' = objGet l k' := by
  induction l with
  | nil => simp [objDel]
  | cons kv t ih =>
    obtain ⟨k0, v0⟩ := kv
    by_cases h0 : k0 = k
    · subst h0
      have hne : ¬(k0 = k') := fun e => h (e.symm)
      simp [objDel, objGet, hne]
    · simp [objDel, h0, objGet, ih]

theorem objGet_eq_none_of_not_mem (l : List (String × JVal)) (k : String)
    (h : k ∉ keysOf l) : objGet l k = none := by
  induction l with
  | nil => simp [objGet]
  | cons kv t ih =>
    obtain ⟨k0, v0⟩ := kv
    rw [keysOf_cons] at h
    simp only [List.mem_cons, not_or] at h
    have : ¬(k0 = k) := fun e => h.1 e.symm
    simp [objGet, this, ih h.2]

theorem mem_keys_of_objGet_some (l : List (String × JVal)) (k : String) (v : JVal)
    (h : objGet l k = some v) : k ∈ keysOf l := by
  induction l with
  | nil => simp [objGet] at h
  | cons kv t ih =>
    obtain ⟨k0, v0⟩ := kv
    rw [keysOf_cons]
    by_cases h0 : k0 = k
    · simp [h0]
    · simp only [objGet, h0, if_false] at h
      exact List.mem_cons_of_mem _ (ih h)

theorem objGet_objDel_self (l : List (String × JVal)) (k : String)
    (h : NodupKeys l) : objGet (objDel l k) k = none := by
  induction l with
  | nil => simp [objDel, objGet]
  | cons kv t ih =>
    obtain ⟨k0, v0⟩ := kv
    unfold NodupKeys at h
    rw [keysOf_cons] at h
    obtain ⟨hnm, hnd⟩ := (List.nodup_cons).mp h
    by_cases h0 : k0 = k
    · subst h0
      simp only [objDel, if_pos rfl]
      exact objGet_eq_none_of_not_mem t k0 hnm
    · simp [objDel, h0, objGet, ih hnd]

theorem keysOf_objSet (l : List (String × JVal)) (k : String) (v : JVal) :
    keysOf (objSet l k v) = if k ∈ keysOf l then keysOf l else keysOf l ++ [k] := by
  induction l with
  | nil => simp [objSet, keysOf]
  | cons kv t ih =>
    obtain ⟨k0, v0⟩ := kv
    by_cases h0 : k0 = k
    · subst h0
      simp [objSet, keysOf_cons]
    · have hne : ¬(k = k0) := fun e => h0 e.symm
      simp only [objSet, h0, if_false, keysOf_cons, ih, List.mem_cons, hne, false_or]
      by_cases hm : k ∈ keysOf t <;> simp [hm]

theorem nodupKeys_objSet (l : List (String × JVal)) (k : String) (v : JVal)
    (h : NodupKeys l) : NodupKeys (objSet l k v) := by
  unfold NodupKeys at h ⊢
  rw [keysOf_objSet]
  by_cases hm : k ∈ keysOf l
  · simpa [hm] using h
  · simp only [hm, if_false]
    exact List.Nodup.append h (List.nodup_singleton k) (by simpa using hm)

theorem objDel_sublist (l : List (String × JVal)) (k : String) :
    (objDel l k).Sublist l := by
  induction l with
  | nil => simp [objDel]
  | cons kv t ih =>
    obtain ⟨k0, v0⟩ := kv
    by_cases h0 : k0 = k
    · simp [objDel, h0]
    · simp only [objDel, h0, if_false]
      exact ih.cons₂ (k0, v0)

theorem nodupKeys_objDel (l : List (String × JVal)) (k : String)
    (h : NodupKeys l) : NodupKeys (objDel l k) :=
  List.Nodup.sublist (List.Sublist.map Prod.fst (objDel_sublist l k)) h

theorem objSet_ne_nil (l : List (String × JVal)) (k : String) (v : JVal) :
    objSet l k v ≠ [] := by
  cases l with
  | nil => simp [objSet]
  | cons kv t =>
    obtain ⟨k0, v0⟩ := kv
    by_cases h0 : k0 = k <;> simp [objSet, h0]

/-! ## Whitespace and digit lemmas -/

theorem skipWs_cons_nws (c : Char) (t : List Char) (h : wsChar c = false) :
    skipWs (c :: t) = c :: t := by
  simp [skipWs, h]

theorem skipWs_append_ws (p x : List Char) (h : ∀ c ∈ p, wsChar c = true) :
    skipWs (p ++ x) = skipWs x := by
  induction p with
  | nil => simp
  | cons c t ih =>
    have hc := h c (List.mem_cons_self c t)
    simp only [List.cons_append, skipWs, hc, if_true]
    exact ih (fun d hd => h d (List.mem_cons_of_mem c hd))

theorem nlInd_ws (i l : Nat) : ∀ c ∈ nlInd i l, wsChar c = true := by
  intro c hc
  unfold nlInd at hc
  by_cases hi : i = 0
  · simp [hi] at hc
  · simp only [hi, if_false, List.mem_cons] at hc
    rcases hc with h | h
    · subst h; decide
    · rw [List.eq_of_mem_replicate h]; decide

theorem skipWs_nlInd (i l : Nat) (x : List Char) :
    skipWs (nlInd i l ++ x) = skipWs x :=
  skipWs_append_ws _ x (nlInd_ws i l)

theorem skipWs_ws_cons (c : Char) (t : List Char) (h : wsChar c = true) :
    skipWs (c :: t) = skipWs t := by
  simp [skipWs, h]

theorem isDig_toNat (c : Char) (h : isDig c = true) : 48 ≤ c.toNat ∧ c.toNat ≤ 57 := by
  simpa [isDig] using h

theorem isDig_nws (c : Char) (h : isDig c = true) : wsChar c = false := by
  have := isDig_toNat c h
  simp only [wsChar, Bool.or_eq_false_iff, decide_eq_false_iff_not]
  omega

theorem isDig_ne (c : Char) (h : isDig c = true) :
    c ≠ 'n' ∧ c ≠ 't' ∧ c ≠ 'f' ∧ c ≠ '"' ∧ c ≠ '[' ∧ c ≠ '{' ∧ c ≠ '-' ∧
      c ≠ ']' ∧ c ≠ '}' ∧ c ≠ ',' ∧ c ≠ ':' := by
  refine ⟨?_, ?_, ?_, ?_, ?_, ?_, ?_, ?_, ?_, ?_, ?_⟩ <;>
    (intro e; subst e; exact absurd h (by decide))

theorem dig_digitChar : ∀ d, d < 10 → isDig (digitChar d) = true ∧ digVal (digitChar d) = d := by
  decide

theorem digitChar_ne_zero : ∀ d, d < 10 → 1 ≤ d → digitChar d ≠ '0' := by
  decide

theorem hexVal_hexDigitChar : ∀ d, d < 16 → hexVal (hexDigitChar d) = some d := by
  decide

theorem digitsVal_append_single (ds : List Char) (c : Char) :
    digitsVal (ds ++ [c]) = digitsVal ds * 10 + digVal c := by
  simp [digitsVal, List.foldl_append]

theorem natCharsF_spec : ∀ f n, n < f →
    natCharsF f n ≠ [] ∧ (∀ c ∈ natCharsF f n, isDig c = true) ∧
      digitsVal (natCharsF f n) = n := by
  intro f
  induction f with
  | zero => intro n hn; omega
  | succ f ih =>
    intro n hn
    by_cases h10 : n < 10
    · have hd := dig_digitChar n h10
      refine ⟨by simp [natCharsF, h10], ?_, ?_⟩
      · intro c hc
        simp only [natCharsF, h10, if_true, List.mem_singleton] at hc
        subst hc; exact hd.1
      · simp [natCharsF, h10, digitsVal, hd.2]
    · have hdiv : n / 10 < f := by omega
      obtain ⟨hne, hdigs, hval⟩ := ih (n / 10) hdiv
      have hmod := dig_digitChar (n % 10) (by omega)
      refine ⟨by simp [natCharsF, h10], ?_, ?_⟩
      · intro c hc
        simp only [natCharsF, h10, if_false, List.mem_append, List.mem_singleton] at hc
        rcases hc with h | h
        · exact hdigs c h
        · subst h; exact hmod.1
      · simp only [natCharsF, h10, if_false, digitsVal_append_single, hval, hmod.2]
        omega

theorem natChars_spec (n : Nat) :
    natChars n ≠ [] ∧ (∀ c ∈ natChars n, isDig c = true) ∧ digitsVal (natChars n) = n :=
  natCharsF_spec (n + 1) n (by omega)

theorem natCharsF_head : ∀ f n, n < f → 1 ≤ n →
    ∃ d t, natCharsF f n = d :: t ∧ d ≠ '0' ∧ isDig d = true := by
  intro f
  induction f with
  | zero => intro n hn; omega
  | succ f ih =>
    intro n hn h1
    by_cases h10 : n < 10
    · exact ⟨digitChar n, [], by simp [natCharsF, h10],
        digitChar_ne_zero n h10 h1, (dig_digitChar n h10).1⟩
    · obtain ⟨d, t, he, hd0, hdd⟩ := ih (n / 10) (by omega) (by omega)
      exact ⟨d, t ++ [digitChar (n % 10)], by simp [natCharsF, h10, he], hd0, hdd⟩

theorem natChars_zero : natChars 0 = ['0'] := rfl

theorem lead0_cons_ne (d : Char) (t : List Char) (h : d ≠ '0') :
    lead0 (d :: t) = false := by
  cases t with
  | nil => rfl
  | cons c u => simp [lead0, h]

theorem lead0_single (d : Char) : lead0 [d] = false := rfl

theorem lead0_natChars (n : Nat) : lead0 (natChars n) = false := by
  rcases Nat.eq_zero_or_pos n with h | h
  · subst h; rfl
  · obtain ⟨d, t, he, hd0, _⟩ := natCharsF_head (n + 1) n (by omega) h
    unfold natChars
    rw [he]
    exact lead0_cons_ne d t hd0

theorem splitDigits_append (ds r : List Char) (h : ∀ c ∈ ds, isDig c = true)
    (hr : headNotDigit r = true) : splitDigits (ds ++ r) = (ds, r) := by
  induction ds with
  | nil =>
    cases r with
    | nil => rfl
    | cons c t =>
      simp only [headNotDigit, Bool.not_eq_true'] at hr
      simp [splitDigits, hr]
  | cons c t ih =>
    have hc := h c (List.mem_cons_self c t)
    simp [splitDigits, hc, ih (fun d hd => h d (List.mem_cons_of_mem c hd))]

theorem headNotDigit_cons (c : Char) (t : List Char) (h : isDig c = false) :
    headNotDigit (c :: t) = true := by
  simp [headNotDigit, h]

theorem headNotDigit_of_skipWs (t : List Char) (c : Char) (r : List Char)
    (hs : skipWs t = c :: r) (hc : isDig c = false) : headNotDigit t = true := by
  cases t with
  | nil => rfl
  | cons c0 t0 =>
    by_cases hw : wsChar c0 = true
    · refine headNotDigit_cons c0 t0 ?_
      cases hdig : isDig c0
      · rfl
      · exact absurd hw (by simp [isDig_nws c0 hdig])
    · rw [skipWs_cons_nws c0 t0 (by simpa using hw)] at hs
      cases hs
      exact headNotDigit_cons _ _ hc

/-! ## String escape round trip -/

theorem strMk_data (s : String) : String.mk s.data = s := by
  cases s
  rfl

theorem parseStrBody_escStr (cs rest : List Char) :
    parseStrBody (escStr cs ++ '"' :: rest) = some (cs, rest) := by
  induction cs with
  | nil =>
    rw [show escStr [] ++ '"' :: rest = '"' :: rest by simp [escStr]]
    rw [parseStrBody.eq_def]
    simp
  | cons c t ih =>
    rw [show escStr (c :: t) ++ '"' :: rest = escChar c ++ (escStr t ++ '"' :: rest) by
      simp [escStr]]
    by_cases h1 : c = '"'
    · subst h1
      rw [show escChar '"' = ['\\', '"'] from rfl]
      rw [List.cons_append, List.cons_append, List.nil_append]
      rw [parseStrBody.eq_def]
      simp [mapCons, ih]
    · by_cases h2 : c = '\\'
      · subst h2
        rw [show escChar '\\' = ['\\', '\\'] by simp [escChar]]
        rw [List.cons_append, List.cons_append, List.nil_append]
        rw [parseStrBody.eq_def]
        simp [mapCons, ih]
      · by_cases h3 : c.toNat = 8
        · have hc : Char.ofNat 8 = c := by rw [← h3, Char.ofNat_toNat]
          rw [show escChar c = ['\\', 'b'] by simp [escChar, h1, h2, h3]]
          rw [List.cons_append, List.cons_append, List.nil_append]
          rw [parseStrBody.eq_def]
          simp [mapCons, ih, hc]
          exact hc
        · by_cases h4 : c.toNat = 12
          · have hc : Char.ofNat 12 = c := by rw [← h4, Char.ofNat_toNat]
            rw [show escChar c = ['\\', 'f'] by simp [escChar, h1, h2, h3, h4]]
            rw [List.cons_append, List.cons_append, List.nil_append]
            rw [parseStrBody.eq_def]
            simp [mapCons, ih, hc]
            exact hc
          · by_cases h5 : c = '\n'
            · subst h5
              rw [show escChar '\n' = ['\\', 'n'] by simp [escChar]]
              rw [List.cons_append, List.cons_append, List.nil_append]
              rw [parseStrBody.eq_def]
              simp [mapCons, ih]
            · by_cases h6 : c.toNat = 13
              · have hc : Char.ofNat 13 = c := by rw [← h6, Char.ofNat_toNat]
                rw [show escChar c = ['\\', 'r'] by simp [escChar, h1, h2, h3, h4, h5, h6]]
                rw [List.cons_append, List.cons_append, List.nil_append]
                rw [parseStrBody.eq_def]
                simp [mapCons, ih, hc]
                exact hc
              · by_cases h7 : c = '\t'
                · subst h7
                  rw [show escChar '\t' = ['\\', 't'] by simp [escChar]]
                  rw [List.cons_append, List.cons_append, List.nil_append]
                  rw [parseStrBody.eq_def]
                  simp [mapCons, ih]
                · by_cases h8 : c.toNat < 32
                  · rw [show escChar c =
                        ['\\', 'u', '0', '0', hexDigitChar (c.toNat / 16),
                          hexDigitChar (c.toNat % 16)] by
                      simp [escChar, h1, h2, h3, h4, h5, h6, h7, h8]]
                    have hhi : hexVal (hexDigitChar (c.toNat / 16)) = some (c.toNat / 16) :=
                      hexVal_hexDigitChar _ (by omega)
                    have hlo : hexVal (hexDigitChar (c.toNat % 16)) = some (c.toNat % 16) :=
                      hexVal_hexDigitChar _ (by omega)
                    have harith : ((0 * 16 + 0) * 16 + c.toNat / 16) * 16 + c.toNat % 16
                        = c.toNat := by omega
                    simp only [List.cons_append, List.nil_append]
                    rw [parseStrBody.eq_def]
                    simp only [hhi, hlo, mapCons, ih]
                    simp [hexVal]
                    rw [show c.toNat / 16 * 16 + c.toNat % 16 = c.toNat by omega,
                      Char.ofNat_toNat]
                  · rw [show escChar c = [c] by simp [escChar, h1, h2, h3, h4, h5, h6, h7, h8]]
                    simp only [List.cons_append, List.nil_append]
                    rw [parseStrBody.eq_def]
                    simp [h1, h2, h8, mapCons, ih]

/-! ## Serializer shape lemmas -/

theorem natChars_ne_nil (n : Nat) : natChars n ≠ [] := (natChars_spec n).1

theorem intChars_ne_nil (n : Int) : intChars n ≠ [] := by
  unfold intChars
  split
  · simp
  · exact natChars_ne_nil _

theorem intChars_head (n : Int) :
    ∃ c t, intChars n = c :: t ∧ (c = '-' ∨ isDig c = true) := by
  unfold intChars
  split
  · exact ⟨'-', natChars n.natAbs, rfl, Or.inl rfl⟩
  · rcases hn : natChars n.toNat with _ | ⟨c, t⟩
    · exact absurd hn (natChars_ne_nil _)
    · refine ⟨c, t, rfl, Or.inr ?_⟩
      exact (natChars_spec n.toNat).2.1 c (by rw [hn]; exact List.mem_cons_self c t)

theorem serVal_head (v : JVal) (i l : Nat) :
    ∃ c t, serVal i l v = c :: t ∧ wsChar c = false ∧ c ≠ ']' ∧ c ≠ '}' := by
  cases v with
  | num n =>
    obtain ⟨c, t, he, hc⟩ := intChars_head n
    refine ⟨c, t, he, ?_⟩
    rcases hc with h | h
    · subst h
      decide
    · exact ⟨isDig_nws c h, (isDig_ne c h).2.2.2.2.2.2.2.1,
        (isDig_ne c h).2.2.2.2.2.2.2.2.1⟩
  | bool b => cases b <;> exact ⟨_, _, rfl, by decide⟩
  | arr xs => cases xs <;> exact ⟨_, _, rfl, by decide⟩
  | obj kvs => cases kvs <;> exact ⟨_, _, rfl, by decide⟩
  | null => exact ⟨_, _, rfl, by decide⟩
  | str s => exact ⟨_, _, rfl, by decide⟩

theorem skipWs_serVal (v : JVal) (i l : Nat) (x : List Char) :
    skipWs (serVal i l v ++ x) = serVal i l v ++ x := by
  obtain ⟨c, t, he, hws, _, _⟩ := serVal_head v i l
  rw [he, List.cons_append]
  exact skipWs_cons_nws c (t ++ x) hws

theorem headIs_serVal_rb (v : JVal) (i l : Nat) (x : List Char) :
    headIs (serVal i l v ++ x) ']' = false := by
  obtain ⟨c, t, he, _, hc, _⟩ := serVal_head v i l
  rw [he, List.cons_append]
  simp [headIs, hc]

theorem headIs_serVal_cb (v : JVal) (i l : Nat) (x : List Char) :
    headIs (serVal i l v ++ x) '}' = false := by
  obtain ⟨c, t, he, _, _, hc⟩ := serVal_head v i l
  rw [he, List.cons_append]
  simp [headIs, hc]

theorem colonSep_length (i : Nat) : 1 ≤ (colonSep i).length := by
  unfold colonSep
  split <;> simp

mutual

theorem serLen : ∀ (v : JVal) (i l : Nat), jsize v ≤ (serVal i l v).length := by
  intro v i l
  cases v with
  | null => simp [serVal, jsize]
  | bool b => cases b <;> simp [serVal, jsize]
  | num n =>
    have h := intChars_ne_nil n
    have : 1 ≤ (intChars n).length := List.length_pos.mpr h
    simpa [serVal, jsize] using this
  | str s => simp [serVal, jsize]
  | arr xs =>
    cases xs with
    | nil => simp [serVal, jsize, jsizeA]
    | cons x t =>
      have h1 := serLen x i (l + 1)
      have h2 := serLenA t i (l + 1)
      simp only [serVal, jsize, jsizeA, List.length_cons, List.length_append]
      omega
  | obj kvs =>
    cases kvs with
    | nil => simp [serVal, jsize, jsizeM]
    | cons kv t =>
      have h1 := serLen kv.2 i (l + 1)
      have h2 := serLenM t i (l + 1)
      have h3 := colonSep_length i
      simp only [serVal, jsize, jsizeM, serMember, List.length_cons, List.length_append]
      omega

theorem serLenA : ∀ (xs : List JVal) (i l : Nat), jsizeA xs ≤ (serItems i l xs).length := by
  intro xs i l
  cases xs with
  | nil => simp [serItems, jsizeA]
  | cons x t =>
    have h1 := serLen x i l
    have h2 := serLenA t i l
    simp only [serItems, jsizeA, List.length_cons, List.length_append]
    omega

theorem serLenM : ∀ (kvs : List (String × JVal)) (i l : Nat),
    jsizeM kvs ≤ (serMembers i l kvs).length := by
  intro kvs i l
  cases kvs with
  | nil => simp [serMembers, jsizeM]
  | cons kv t =>
    have h1 := serLen kv.2 i l
    have h2 := serLenM t i l
    have h3 := colonSep_length i
    simp only [serMembers, serMember, jsizeM, List.length_cons, List.length_append]
    omega

end

/-! ## Parser step lemmas

The parser recurses structurally on the fuel, so its defining equations only
unfold once the fuel is in constructor form; these lemmas restate each dispatch
branch for arbitrary fuel. -/

theorem pvc_quote (f : Nat) (r : List Char) :
    parseValCore f ('"' :: r) =
      match parseStrBody r with
      | some (cs, r') => some (.str (String.mk cs), r')
      | none => none := by cases f <;> rfl

theorem pvc_null (f : Nat) (rest : List Char) :
    parseValCore f ('n' :: 'u' :: 'l' :: 'l' :: rest) = some (.null, rest) := by
  cases f <;> rfl

theorem pvc_true (f : Nat) (rest : List Char) :
    parseValCore f ('t' :: 'r' :: 'u' :: 'e' :: rest) = some (.bool true, rest) := by
  cases f <;> rfl

theorem pvc_false (f : Nat) (rest : List Char) :
    parseValCore f ('f' :: 'a' :: 'l' :: 's' :: 'e' :: rest) = some (.bool false, rest) := by
  cases f <;> rfl

theorem pvc_openA (f : Nat) (r : List Char) :
    parseValCore f ('[' :: r) =
      (if headIs (skipWs r) ']' then some (.arr [], (skipWs r).tail)
       else match f with
            | 0 => none
            | g + 1 =>
              match parseItems g (skipWs r) with
              | some (vs, r') => some (.arr vs, r')
              | none => none) := by cases f <;> rfl

theorem pvc_openO (f : Nat) (r : List Char) :
    parseValCore f ('{' :: r) =
      (if headIs (skipWs r) '}' then some (.obj [], (skipWs r).tail)
       else match f with
            | 0 => none
            | g + 1 =>
              match parseMembers g (skipWs r) with
              | some (kvs, r') => some (.obj kvs, r')
              | none => none) := by cases f <;> rfl

theorem pvc_dash (f : Nat) (r : List Char) :
    parseValCore f ('-' :: r) =
      (if (splitDigits r).1.isEmpty || lead0 (splitDigits r).1 then none
       else some (.num (-(Int.ofNat (digitsVal (splitDigits r).1))), (splitDigits r).2)) := by
  cases f <;> rfl

theorem pvc_dig (f : Nat) (c : Char) (r : List Char) (hd : isDig c = true) :
    parseValCore f (c :: r) =
      (if lead0 (splitDigits (c :: r)).1 then none
       else some (.num (Int.ofNat (digitsVal (splitDigits (c :: r)).1)),
         (splitDigits (c :: r)).2)) := by
  obtain ⟨hlo, hhi⟩ := isDig_toNat c hd
  have hofn := (Char.ofNat_toNat c).symm
  interval_cases h : c.toNat <;> (rw [hofn]; cases f <;> rfl)

theorem pm_step (g : Nat) (r : List Char) :
    parseMembers (g + 1) ('"' :: r) =
      (match parseStrBody r with
         | some (kcs, r1) =>
           if headIs (skipWs r1) ':' then
             match parseValCore g (skipWs (skipWs r1).tail) with
             | some (v, r3) =>
               if headIs (skipWs r3) ',' then
                 match parseMembers g (skipWs (skipWs r3).tail) with
                 | some (kvs, r5) => some ((String.mk kcs, v) :: kvs, r5)
                 | none => none
               else if headIs (skipWs r3) '}' then
                 some ([(String.mk kcs, v)], (skipWs r3).tail)
               else none
             | none => none
           else none
         | none => none) := rfl

theorem pi_step (g : Nat) (input : List Char) :
    parseItems (g + 1) input =
      (match parseValCore g (skipWs input) with
       | some (v, r) =>
         if headIs (skipWs r) ',' then
           match parseItems g (skipWs (skipWs r).tail) with
           | some (vs, r3) => some (v :: vs, r3)
           | none => none
         else if headIs (skipWs r) ']' then some ([v], (skipWs r).tail)
         else none
       | none => none) := rfl

/-! ## Parser round trip: leaf values -/

theorem pvc_str (f : Nat) (s : String) (rest : List Char) :
    parseValCore f ('"' :: (escStr s.data ++ ('"' :: rest))) = some (.str s, rest) := by
  rw [pvc_quote, parseStrBody_escStr]

theorem pvc_arrNil (f : Nat) (rest : List Char) :
    parseValCore f ('[' :: (']' :: rest)) = some (.arr [], rest) := by
  rw [pvc_openA]
  simp only [skipWs_cons_nws ']' rest (by decide)]
  simp [headIs]

theorem pvc_objNil (f : Nat) (rest : List Char) :
    parseValCore f ('{' :: ('}' :: rest)) = some (.obj [], rest) := by
  rw [pvc_openO]
  simp only [skipWs_cons_nws '}' rest (by decide)]
  simp [headIs]

theorem pvc_num (f : Nat) (n : Int) (rest : List Char) (h : headNotDigit rest = true) :
    parseValCore f (intChars n ++ rest) = some (.num n, rest) := by
  by_cases hn : n < 0
  · have hspec := natChars_spec n.natAbs
    rw [show intChars n = '-' :: natChars n.natAbs by simp [intChars, hn]]
    rw [List.cons_append, pvc_dash]
    simp only [splitDigits_append (natChars n.natAbs) rest hspec.2.1 h]
    have hne : (natChars n.natAbs).isEmpty = false := by
      simpa [List.isEmpty_iff] using hspec.1
    simp only [hne, lead0_natChars, Bool.or_self, if_false, hspec.2.2, Bool.false_eq_true]
    have : -(Int.ofNat n.natAbs) = n := by rw [Int.ofNat_eq_coe]; omega
    rw [this]
  · rcases hnc : natChars n.toNat with _ | ⟨d, ds⟩
    · exact absurd hnc (natChars_ne_nil _)
    · have hspec := natChars_spec n.toNat
      have hd : isDig d = true := hspec.2.1 d (by rw [hnc]; exact List.mem_cons_self d ds)
      rw [show intChars n = natChars n.toNat by simp [intChars, hn], hnc, List.cons_append,
        pvc_dig f d (ds ++ rest) hd]
      rw [show d :: (ds ++ rest) = (d :: ds) ++ rest from rfl, ← hnc]
      simp only [splitDigits_append (natChars n.toNat) rest hspec.2.1 h, lead0_natChars,
        if_false, hspec.2.2, Bool.false_eq_true]
      have : Int.ofNat n.toNat = n := by rw [Int.ofNat_eq_coe]; omega
      rw [this]

/-! ## Shape lemmas for the round-trip induction -/

theorem jsize_pos (v : JVal) : 1 ≤ jsize v := by
  cases v <;> simp [jsize]

theorem serMember_shape (i l : Nat) (k : String) (v : JVal) (y : List Char) :
    serMember i l (k, v) ++ y =
      '"' :: (escStr k.data ++ ('"' :: (colonSep i ++ (serVal i l v ++ y)))) := by
  simp [serMember]

theorem skipWs_serMember (i l : Nat) (kv : String × JVal) (x : List Char) :
    skipWs (serMember i l kv ++ x) = serMember i l kv ++ x := by
  obtain ⟨k, v⟩ := kv
  rw [serMember_shape]
  exact skipWs_cons_nws _ _ (by decide)

theorem serArr_shape (i l : Nat) (x : JVal) (xs : List JVal) (rest : List Char) :
    serVal i l (.arr (x :: xs)) ++ rest =
      '[' :: (nlInd i (l + 1) ++ (serVal i (l + 1) x ++
        (serItems i (l + 1) xs ++ (nlInd i l ++ (']' :: rest))))) := by
  simp [serVal]

theorem serObj_shape (i l : Nat) (kv : String × JVal) (kvs : List (String × JVal))
    (rest : List Char) :
    serVal i l (.obj (kv :: kvs)) ++ rest =
      '{' :: (nlInd i (l + 1) ++ (serMember i (l + 1) kv ++
        (serMembers i (l + 1) kvs ++ (nlInd i l ++ ('}' :: rest))))) := by
  simp [serVal]

theorem serItems_shape (i l : Nat) (x : JVal) (t : List JVal) (y : List Char) :
    serItems i l (x :: t) ++ y =
      ',' :: (nlInd i l ++ (serVal i l x ++ (serItems i l t ++ y))) := by
  simp [serItems]

theorem serMembers_shape (i l : Nat) (kv : String × JVal) (t : List (String × JVal))
    (y : List Char) :
    serMembers i l (kv :: t) ++ y =
      ',' :: (nlInd i l ++ (serMember i l kv ++ (serMembers i l t ++ y))) := by
  simp [serMembers]

theorem headNotDigit_serItems (xs : List JVal) (i l : Nat) (trail rest : List Char)
    (c : Char) (hs : skipWs trail = c :: rest) (hc : isDig c = false) :
    headNotDigit (serItems i l xs ++ trail) = true := by
  cases xs with
  | nil =>
    simp only [serItems, List.nil_append]
    exact headNotDigit_of_skipWs trail c rest hs hc
  | cons x t =>
    rw [serItems_shape]
    exact headNotDigit_cons ',' _ (by decide)

theorem headNotDigit_serMembers (kvs : List (String × JVal)) (i l : Nat)
    (trail rest : List Char) (c : Char) (hs : skipWs trail = c :: rest)
    (hc : isDig c = false) :
    headNotDigit (serMembers i l kvs ++ trail) = true := by
  cases kvs with
  | nil =>
    simp only [serMembers, List.nil_append]
    exact headNotDigit_of_skipWs trail c rest hs hc
  | cons kv t =>
    rw [serMembers_shape]
    exact headNotDigit_cons ',' _ (by decide)

theorem colonSep_parse (i : Nat) (x : List Char) (hx : skipWs x = x) :
    skipWs (colonSep i ++ x) = colonSep i ++ x ∧
      headIs (colonSep i ++ x) ':' = true ∧
      skipWs ((colonSep i ++ x).tail) = x := by
  by_cases hi : i = 0
  · simp only [colonSep, hi, if_pos rfl, List.cons_append, List.nil_append]
    exact ⟨skipWs_cons_nws ':' x (by decide), by simp [headIs], by simpa using hx⟩
  · simp only [colonSep, hi, if_neg hi, List.cons_append, List.nil_append]
    refine ⟨skipWs_cons_nws ':' (' ' :: x) (by decide), by simp [headIs], ?_⟩
    show skipWs (' ' :: x) = x
    rw [skipWs_ws_cons ' ' x (by decide)]
    exact hx

theorem pvc_openA_succ (g : Nat) (r : List Char) :
    parseValCore (g + 1) ('[' :: r) =
      (if headIs (skipWs r) ']' then some (.arr [], (skipWs r).tail)
       else
         match parseItems g (skipWs r) with
         | some (vs, r') => some (.arr vs, r')
         | none => none) := rfl

theorem pvc_openO_succ (g : Nat) (r : List Char) :
    parseValCore (g + 1) ('{' :: r) =
      (if headIs (skipWs r) '}' then some (.obj [], (skipWs r).tail)
       else
         match parseMembers g (skipWs r) with
         | some (kvs, r') => some (.obj kvs, r')
         | none => none) := rfl

/-- Round trip for values of size 1 (no recursion into the fuel). -/
theorem pvc_leaf (f : Nat) (v : JVal) (i l : Nat) (rest : List Char)
    (hrest : headNotDigit rest = true) (hsz : jsize v ≤ 1) :
    parseValCore f (serVal i l v ++ rest) = some (v, rest) := by
  cases v with
  | null => exact pvc_null f rest
  | bool b =>
    cases b with
    | true => exact pvc_true f rest
    | false => exact pvc_false f rest
  | num n => exact pvc_num f n rest hrest
  | str s =>
    rw [show serVal i l (.str s) ++ rest = '"' :: (escStr s.data ++ ('"' :: rest)) by
      simp [serVal]]
    exact pvc_str f s rest
  | arr xs =>
    cases xs with
    | nil => exact pvc_arrNil f rest
    | cons x t =>
      exfalso
      have hp := jsize_pos x
      simp only [jsize, jsizeA] at hsz
      omega
  | obj kvs =>
    cases kvs with
    | nil => exact pvc_objNil f rest
    | cons kv t =>
      exfalso
      have hp := jsize_pos kv.2
      simp only [jsize, jsizeM] at hsz
      omega

/-- The round-trip theorem for the fueled parser: parsing a serialized value
(followed by any digit-free rest) returns exactly that value, for any indent
and nesting level, provided the fuel is at least the value's size. -/
theorem parse_ser_master : ∀ f : Nat,
    (∀ (v : JVal) (i l : Nat) (rest : List Char), jsize v ≤ f + 1 →
      headNotDigit rest = true →
      parseValCore f (serVal i l v ++ rest) = some (v, rest)) ∧
    (∀ (k : String) (v : JVal) (kvs : List (String × JVal)) (i l : Nat)
      (trail rest : List Char), jsizeM ((k, v) :: kvs) ≤ f + 1 →
      skipWs trail = '}' :: rest →
      parseMembers f (serMember i l (k, v) ++ (serMembers i l kvs ++ trail)) =
        some ((k, v) :: kvs, rest)) ∧
    (∀ (x : JVal) (xs : List JVal) (i l : Nat) (trail rest : List Char),
      jsizeA (x :: xs) ≤ f + 1 → skipWs trail = ']' :: rest →
      parseItems f (serVal i l x ++ (serItems i l xs ++ trail)) =
        some (x :: xs, rest)) := by
  intro f
  induction f with
  | zero =>
    refine ⟨?_, ?_, ?_⟩
    · intro v i l rest hsz hrest
      exact pvc_leaf 0 v i l rest hrest hsz
    · intro k v kvs i l trail rest hsz htr
      exfalso
      have hp := jsize_pos v
      simp only [jsizeM] at hsz
      omega
    · intro x xs i l trail rest hsz htr
      exfalso
      have hp := jsize_pos x
      simp only [jsizeA] at hsz
      omega
  | succ g ih =>
    obtain ⟨ihPV, ihPM, ihPI⟩ := ih
    refine ⟨?_, ?_, ?_⟩
    · intro v i l rest hsz hrest
      cases v with
      | null => exact pvc_leaf (g + 1) .null i l rest hrest (by simp [jsize])
      | bool b => exact pvc_leaf (g + 1) (.bool b) i l rest hrest (by simp [jsize])
      | num n => exact pvc_leaf (g + 1) (.num n) i l rest hrest (by simp [jsize])
      | str s => exact pvc_leaf (g + 1) (.str s) i l rest hrest (by simp [jsize])
      | arr xs =>
        cases xs with
        | nil => exact pvc_leaf (g + 1) (.arr []) i l rest hrest (by simp [jsize, jsizeA])
        | cons x t =>
          rw [serArr_shape, pvc_openA_succ]
          have hw : skipWs (nlInd i (l + 1) ++ (serVal i (l + 1) x ++
              (serItems i (l + 1) t ++ (nlInd i l ++ (']' :: rest))))) =
              serVal i (l + 1) x ++ (serItems i (l + 1) t ++ (nlInd i l ++ (']' :: rest))) := by
            rw [skipWs_nlInd, skipWs_serVal]
          rw [hw, headIs_serVal_rb]
          have htrail : skipWs (nlInd i l ++ (']' :: rest)) = ']' :: rest := by
            rw [skipWs_nlInd]
            exact skipWs_cons_nws ']' rest (by decide)
          have hfuel : jsizeA (x :: t) ≤ g + 1 := by
            simp only [jsize, jsizeA] at hsz ⊢
            omega
          rw [ihPI x t i (l + 1) (nlInd i l ++ (']' :: rest)) rest hfuel htrail]
          simp
      | obj kvs =>
        cases kvs with
        | nil => exact pvc_leaf (g + 1) (.obj []) i l rest hrest (by simp [jsize, jsizeM])
        | cons kv t =>
          obtain ⟨k, v⟩ := kv
          rw [serObj_shape, pvc_openO_succ]
          have hw : skipWs (nlInd i (l + 1) ++ (serMember i (l + 1) (k, v) ++
              (serMembers i (l + 1) t ++ (nlInd i l ++ ('}' :: rest))))) =
              serMember i (l + 1) (k, v) ++
                (serMembers i (l + 1) t ++ (nlInd i l ++ ('}' :: rest))) := by
            rw [skipWs_nlInd, skipWs_serMember]
          rw [hw]
          have hhead : headIs (serMember i (l + 1) (k, v) ++
              (serMembers i (l + 1) t ++ (nlInd i l ++ ('}' :: rest)))) '}' = false := by
            rw [serMember_shape]
            simp [headIs]
          rw [hhead]
          have htrail : skipWs (nlInd i l ++ ('}' :: rest)) = '}' :: rest := by
            rw [skipWs_nlInd]
            exact skipWs_cons_nws '}' rest (by decide)
          have hfuel : jsizeM ((k, v) :: t) ≤ g + 1 := by
            simp only [jsize, jsizeM] at hsz ⊢
            omega
          rw [ihPM k v t i (l + 1) (nlInd i l ++ ('}' :: rest)) rest hfuel htrail]
          simp
    · intro k v kvs i l trail rest hsz htr
      rw [serMember_shape, pm_step, parseStrBody_escStr]
      simp only []
      have hX : skipWs (serVal i l v ++ (serMembers i l kvs ++ trail)) =
          serVal i l v ++ (serMembers i l kvs ++ trail) := skipWs_serVal v i l _
      obtain ⟨hc1, hc2, hc3⟩ :=
        colonSep_parse i (serVal i l v ++ (serMembers i l kvs ++ trail)) hX
      rw [hc1, hc2]
      simp only [if_true]
      rw [hc3]
      have hfuelv : jsize v ≤ g + 1 := by
        simp only [jsizeM] at hsz
        omega
      have hndr : headNotDigit (serMembers i l kvs ++ trail) = true :=
        headNotDigit_serMembers kvs i l trail rest '}' htr (by decide)
      rw [ihPV v i l (serMembers i l kvs ++ trail) hfuelv hndr]
      simp only []
      cases kvs with
      | nil =>
        rw [show serMembers i l ([] : List (String × JVal)) ++ trail = trail by
          simp [serMembers]]
        rw [htr]
        rw [show headIs ('}' :: rest) ',' = false by simp [headIs]]
        rw [show headIs ('}' :: rest) '}' = true by simp [headIs]]
        simp [strMk_data]
      | cons kv2 t2 =>
        obtain ⟨k2, v2⟩ := kv2
        rw [serMembers_shape]
        rw [skipWs_cons_nws ',' _ (by decide)]
        rw [show headIs (',' :: (nlInd i l ++ (serMember i l (k2, v2) ++
          (serMembers i l t2 ++ trail)))) ',' = true by simp [headIs]]
        simp only [if_true, List.tail_cons]
        rw [skipWs_nlInd, skipWs_serMember]
        have hfuel2 : jsizeM ((k2, v2) :: t2) ≤ g + 1 := by
          have hp := jsize_pos v
          simp only [jsizeM] at hsz ⊢
          omega
        rw [ihPM k2 v2 t2 i l trail rest hfuel2 htr]
    · intro x xs i l trail rest hsz htr
      rw [pi_step, skipWs_serVal]
      have hfuelx : jsize x ≤ g + 1 := by
        simp only [jsizeA] at hsz
        omega
      have hndr : headNotDigit (serItems i l xs ++ trail) = true :=
        headNotDigit_serItems xs i l trail rest ']' htr (by decide)
      rw [ihPV x i l (serItems i l xs ++ trail) hfuelx hndr]
      simp only []
      cases xs with
      | nil =>
        rw [show serItems i l ([] : List JVal) ++ trail = trail by simp [serItems]]
        rw [htr]
        rw [show headIs (']' :: rest) ',' = false by simp [headIs]]
        rw [show headIs (']' :: rest) ']' = true by simp [headIs]]
        simp
      | cons x2 t2 =>
        rw [serItems_shape]
        rw [skipWs_cons_nws ',' _ (by decide)]
        rw [show headIs (',' :: (nlInd i l ++ (serVal i l x2 ++
          (serItems i l t2 ++ trail)))) ',' = true by simp [headIs]]
        simp only [if_true, List.tail_cons]
        rw [skipWs_nlInd, skipWs_serVal]
        have hfuel2 : jsizeA (x2 :: t2) ≤ g + 1 := by
          have hp := jsize_pos x
          simp only [jsizeA] at hsz ⊢
          omega
        rw [ihPI x2 t2 i l trail rest hfuel2 htr]

/-! ## Round trip, top level -/

theorem skipWs_serVal_self (v : JVal) (i l : Nat) :
    skipWs (serVal i l v) = serVal i l v := by
  have h := skipWs_serVal v i l []
  rwa [List.append_nil] at h

theorem parseJson_stringify (i : Nat) (v : JVal) :
    parseJson (String.mk (serVal i 0 v)) = some v := by
  unfold parseJson
  have hdata : (String.mk (serVal i 0 v)).data = serVal i 0 v := rfl
  rw [hdata, skipWs_serVal_self]
  have hms := (parse_ser_master ((serVal i 0 v).length + 1)).1 v i 0 []
    (le_trans (serLen v i 0) (by omega)) rfl
  rw [List.append_nil] at hms
  rw [hms]
  simp [skipWs]

theorem stringify_ne_empty (i : Nat) (v : JVal) : String.mk (serVal i 0 v) ≠ "" := by
  intro h
  have hlen : 1 ≤ (serVal i 0 v).length := le_trans (jsize_pos v) (serLen v i 0)
  have : serVal i 0 v = [] := by
    have := congrArg String.data h
    simpa using this
  rw [this] at hlen
  simp at hlen

theorem getStore_mkSer (i : Nat) (kvs : List (String × JVal)) :
    getStore (some (String.mk (serVal i 0 (.obj kvs)))) = kvs := by
  unfold getStore
  simp only []
  rw [if_neg (stringify_ne_empty i (.obj kvs))]
  rw [parseJson_stringify i (.obj kvs)]

theorem getStore_stringifyCompact (kvs : List (String × JVal)) :
    getStore (some (stringifyCompact (.obj kvs))) = kvs :=
  getStore_mkSer 0 kvs

theorem getStore_stringifyPretty2 (kvs : List (String × JVal)) :
    getStore (some (stringifyPretty2 (.obj kvs))) = kvs :=
  getStore_mkSer 2 kvs

theorem parseJson_stringifyPretty2 (v : JVal) :
    parseJson (stringifyPretty2 v) = some v :=
  parseJson_stringify 2 v

theorem parseJson_stringifyCompact (v : JVal) :
    parseJson (stringifyCompact v) = some v :=
  parseJson_stringify 0 v

/-! ## Store-level lemmas -/

theorem finishSave_true (slot : Slot) (data : List (String × JVal)) :
    finishSave true slot data = (.ok (), some (stringifyCompact (.obj data))) := rfl

theorem finishSave_false (slot : Slot) (data : List (String × JVal)) :
    finishSave false slot data = (.error .storageFull, slot) := rfl

theorem getStore_finishSave_true (slot : Slot) (data : List (String × JVal)) :
    getStore (finishSave true slot data).2 = data := by
  rw [finishSave_true]
  exact getStore_stringifyCompact data

theorem getStore_none : getStore none = [] := rfl

theorem goodStore_nil : GoodStore [] :=
  ⟨List.nodup_nil, fun k v h => by simp [objGet] at h⟩

theorem goodStore_objSet_obj (store : List (String × JVal)) (m : String)
    (mnew : List (String × JVal)) (hG : GoodStore store) (hne : mnew ≠ [])
    (hnd : NodupKeys mnew) : GoodStore (objSet store m (.obj mnew)) := by
  refine ⟨nodupKeys_objSet store m _ hG.1, fun k v h => ?_⟩
  by_cases hk : k = m
  · subst hk
    rw [objGet_objSet_self] at h
    exact ⟨mnew, (Option.some.injEq _ _ ▸ h).symm ▸ rfl, hne, hnd⟩
  · rw [objGet_objSet_ne store m k _ hk] at h
    exact hG.2 k v h

theorem goodStore_objDel (store : List (String × JVal)) (m : String)
    (hG : GoodStore store) : GoodStore (objDel store m) := by
  refine ⟨nodupKeys_objDel store m hG.1, fun k v h => ?_⟩
  by_cases hk : k = m
  · subst hk
    rw [objGet_objDel_self store k hG.1] at h
    exact absurd h (by simp)
  · rw [objGet_objDel_ne store m k hk] at h
    exact hG.2 k v h

theorem setItem_preserves_good (w : Bool) (m k : String) (v : JVal) (slot : Slot)
    (hG : GoodStore (getStore slot)) : GoodStore (getStore (setItem w m k v slot).2) := by
  unfold setItem
  by_cases h0 : (m == "" || k == "") = true
  · simp only [decide_eq_true_eq] at h0 ⊢
    split
    · exact hG
    · rename_i hne
      exact absurd (by simpa using h0) hne
  · have h0' : (decide (m = "") || decide (k = "")) = false := by simpa using h0
    simp only [h0', Bool.false_eq_true, if_false]
    rcases hkv : objGet (getStore slot) m with _ | v0
    · simp only [hkv]
      cases w with
      | true =>
        rw [getStore_finishSave_true]
        exact goodStore_objSet_obj _ m [(k, v)] hG (by simp) (by simp [NodupKeys, keysOf])
      | false =>
        rw [finishSave_false]
        exact hG
    · obtain ⟨m0, rfl, hm0ne, hm0nd⟩ := hG.2 m v0 hkv
      simp only [hkv, jsTruthy, if_true]
      cases w with
      | true =>
        rw [getStore_finishSave_true]
        exact goodStore_objSet_obj _ m _ hG (objSet_ne_nil m0 k v)
          (nodupKeys_objSet m0 k v hm0nd)
      | false =>
        rw [finishSave_false]
        exact hG

theorem deleteItem_preserves_good (w : Bool) (m k : String) (slot : Slot)
    (hG : GoodStore (getStore slot)) : GoodStore (getStore (deleteItem w m k slot).2) := by
  unfold deleteItem
  by_cases h0 : (decide (m = "") || decide (k = "")) = true
  · simp only [h0, if_true]
    exact hG
  · have h0' : (decide (m = "") || decide (k = "")) = false := by simpa using h0
    simp only [h0', Bool.false_eq_true, if_false]
    rcases hkv : objGet (getStore slot) m with _ | v0
    · simp only [hkv]
      exact hG
    · obtain ⟨m0, rfl, hm0ne, hm0nd⟩ := hG.2 m v0 hkv
      simp only [hkv]
      rcases hkk : objGet m0 k with _ | vk
      · simp only [hkk, Option.isSome_none, Bool.false_eq_true, if_false]
        exact hG
      · simp only [hkk, Option.isSome_some, if_true]
        by_cases hlen : (objDel m0 k).length = 0
        · simp only [hlen, if_true]
          cases w with
          | true =>
            rw [getStore_finishSave_true]
            exact goodStore_objDel _ m hG
          | false =>
            rw [finishSave_false]
            exact hG
        · simp only [hlen, if_false]
          cases w with
          | true =>
            rw [getStore_finishSave_true]
            refine goodStore_objSet_obj _ m _ hG ?_ (nodupKeys_objDel m0 k hm0nd)
            intro he
            rw [he] at hlen
            simp at hlen
          | false =>
            rw [finishSave_false]
            exact hG

theorem clearAllItems_preserves_good (w : Bool) (slot : Slot) :
    GoodStore (getStore (clearAllItems w slot).2) ∨
      (clearAllItems w slot).2 = slot := by
  cases w with
  | true =>
    left
    unfold clearAllItems
    rw [getStore_finishSave_true]
    exact goodStore_nil
  | false =>
    right
    rfl

theorem reachSDC_good : ∀ s : Slot, ReachSDC s → GoodStore (getStore s) := by
  intro s hs
  induction hs with
  | init => exact goodStore_nil
  | set w m k v hprev ih => exact setItem_preserves_good w m k v _ ih
  | del w m k hprev ih => exact deleteItem_preserves_good w m k _ ih
  | clear w hprev ih =>
    rcases clearAllItems_preserves_good w _ with h | h
    · exact h
    · rw [h]
      exact ih

theorem reachSD_sdc : ∀ s : Slot, ReachSD s → ReachSDC s := by
  intro s hs
  induction hs with
  | init => exact ReachSDC.init
  | set w m k v hprev ih => exact ReachSDC.set w m k v ih
  | del w m k hprev ih => exact ReachSDC.del w m k ih

theorem reachSD_good (s : Slot) (hs : ReachSD s) : GoodStore (getStore s) :=
  reachSDC_good s (reachSD_sdc s hs)

/-! ## Congruence of operations in the parsed store -/

theorem finishSave_congr (w : Bool) (s1 s2 : Slot) (d : List (String × JVal))
    (h : getStore s1 = getStore s2) :
    (finishSave w s1 d).1 = (finishSave w s2 d).1 ∧
      getStore (finishSave w s1 d).2 = getStore (finishSave w s2 d).2 := by
  cases w with
  | true => exact ⟨rfl, rfl⟩
  | false => exact ⟨rfl, h⟩

theorem setItem_store_congr (w : Bool) (m k : String) (v : JVal) (s1 s2 : Slot)
    (h : getStore s1 = getStore s2) :
    (setItem w m k v s1).1 = (setItem w m k v s2).1 ∧
      getStore (setItem w m k v s1).2 = getStore (setItem w m k v s2).2 := by
  unfold setItem
  rw [h]
  split
  · exact ⟨rfl, h⟩
  · simp only []
    rcases hkv : objGet (getStore s2) m with _ | v0
    · simp only [hkv]
      exact finishSave_congr w s1 s2 _ h
    · simp only [hkv]
      by_cases ht : jsTruthy v0 = true
      · simp only [ht, if_true]
        rcases v0 with _ | _ | _ | _ | _ | mm
        · exact ⟨rfl, h⟩
        · exact ⟨rfl, h⟩
        · exact ⟨rfl, h⟩
        · exact ⟨rfl, h⟩
        · exact ⟨rfl, h⟩
        · exact finishSave_congr w s1 s2 _ h
      · simp only [Bool.not_eq_true] at ht
        simp only [ht, Bool.false_eq_true, if_false]
        exact finishSave_congr w s1 s2 _ h

theorem deleteItem_store_congr (w : Bool) (m k : String) (s1 s2 : Slot)
    (h : getStore s1 = getStore s2) :
    (deleteItem w m k s1).1 = (deleteItem w m k s2).1 ∧
      getStore (deleteItem w m k s1).2 = getStore (deleteItem w m k s2).2 := by
  unfold deleteItem
  rw [h]
  split
  · exact ⟨by first | rfl | trivial, h⟩
  · simp only []
    rcases hkv : objGet (getStore s2) m with _ | v0
    · simp only [hkv]
      exact ⟨by first | rfl | trivial, h⟩
    · rcases v0 with _ | _ | _ | _ | _ | mm
      · exact ⟨by first | rfl | trivial, h⟩
      · exact ⟨by first | rfl | trivial, h⟩
      · exact ⟨by first | rfl | trivial, h⟩
      · exact ⟨by first | rfl | trivial, h⟩
      · exact ⟨by first | rfl | trivial, h⟩
      · rcases hkk : objGet mm k with _ | vk
        · simp only [hkk, Option.isSome_none, Bool.false_eq_true, if_false]
          exact ⟨by first | rfl | trivial, h⟩
        · simp only [hkk, Option.isSome_some, if_true]
          split
          · exact finishSave_congr w s1 s2 _ h
          · exact finishSave_congr w s1 s2 _ h

theorem getItem_store_congr (m k : String) (s1 s2 : Slot)
    (h : getStore s1 = getStore s2) :
    (getItem m k s1).1 = (getItem m k s2).1 := by
  unfold getItem
  rw [h]
  split <;> rfl

/-! # Claims -/

/-- C5: `getAllItems` never fails: for every content of the underlying storage
slot — empty, missing, or syntactically invalid JSON — it returns a mapping,
and when the persisted bytes are empty or malformed JSON it returns the empty
mapping rather than raising an exception. -/
theorem C5_getAllItems_lenient :
    getAllItems none = [] ∧ getAllItems (some "") = [] ∧
      (∀ s : String, parseJson s = none → getAllItems (some s) = []) := by
  refine ⟨rfl, rfl, ?_⟩
  intro s hp
  unfold getAllItems getStore
  simp only []
  by_cases he : s = ""
  · simp [he]
  · rw [if_neg he, hp]

/-- Witness for C5 at malformed persisted bytes. -/
theorem C5_witness : getAllItems (some "\x7boops") = [] :=
  C5_getAllItems_lenient.2.2 "\x7boops" rfl

/-- C10: `loadDataFromJson` called with a missing file argument rejects with an
error before any file read or parse is attempted (in particular regardless of
the reader's outcome), and the store is left unchanged. -/
theorem C10_loadDataFromJson_noFile (readOk writeOk : Bool) (slot : Slot) :
    loadDataFromJson readOk writeOk none slot = (.error .noFile, slot) := rfl

/-- C9: when the persisted bytes are syntactically valid JSON but the parsed
root is not a plain object, `getAllItems` and every read-modify-write
operation treat the store as the empty mapping rather than operating on the
non-object value. -/
theorem C9_nonObjectRoot_lenient (s : String) (j : JVal) (hp : parseJson s = some j)
    (hobj : ∀ kvs, j ≠ .obj kvs) :
    getStore (some s) = [] ∧ getAllItems (some s) = getAllItems none ∧
      (∀ (w : Bool) (m k : String) (v : JVal),
        (setItem w m k v (some s)).1 = (setItem w m k v none).1 ∧
          getStore (setItem w m k v (some s)).2 = getStore (setItem w m k v none).2) ∧
      (∀ (w : Bool) (m k : String),
        (deleteItem w m k (some s)).1 = (deleteItem w m k none).1 ∧
          getStore (deleteItem w m k (some s)).2 = getStore (deleteItem w m k none).2) ∧
      (∀ m k : String, (getItem m k (some s)).1 = (getItem m k none).1) := by
  have hne : s ≠ "" := by
    intro he
    rw [he] at hp
    exact Option.noConfusion (rfl.trans hp :(none : Option JVal) = some j)
  have hempty : getStore (some s) = [] := by
    unfold getStore
    simp only []
    rw [if_neg hne, hp]
    rcases j with _ | _ | _ | _ | _ | kvs
    · rfl
    · rfl
    · rfl
    · rfl
    · rfl
    · exact absurd rfl (hobj kvs)
  have hcongr : getStore (some s) = getStore none := hempty
  exact ⟨hempty, hcongr, fun w m k v => setItem_store_congr w m k v _ _ hcongr,
    fun w m k => deleteItem_store_congr w m k _ _ hcongr,
    fun m k => getItem_store_congr m k _ _ hcongr⟩

/-- Witness for C9 at the array document `[1,2,3]`. -/
theorem C9_witness :
    getStore (some "[1,2,3]") = [] ∧
      getStore (setItem true "a" "b" (JVal.num 1) (some "[1,2,3]")).2 =
        getStore (setItem true "a" "b" (JVal.num 1) none).2 := by
  have h := C9_nonObjectRoot_lenient "[1,2,3]" (.arr [.num 1, .num 2, .num 3]) rfl
    (fun kvs hk => JVal.noConfusion hk)
  exact ⟨h.1, (h.2.2.1 true "a" "b" (JVal.num 1)).2⟩

/-- C8: for nonempty module and key, `getItem` returns the value stored at
`(module, key)` — `undefined` (modelled `none`) when either is absent; it
raises `InvalidArgument` exactly when module or key is empty; and it never
mutates the store. -/
theorem C8_getItem_spec (m k : String) (slot : Slot) :
    ((getItem m k slot).1 =
        .error (.invalidArgument "Module and Key are required to get an item.") ↔
      (m = "" ∨ k = "")) ∧
    (getItem m k slot).2 = slot ∧
    (m ≠ "" → k ≠ "" → ∀ mm, objGet (getStore slot) m = some (.obj mm) →
      (getItem m k slot).1 = .ok (objGet mm k)) ∧
    (m ≠ "" → k ≠ "" → objGet (getStore slot) m = none →
      (getItem m k slot).1 = .ok none) := by
  by_cases h0 : (decide (m = "") || decide (k = "")) = true
  · have hor : m = "" ∨ k = "" := by simpa using h0
    have he : getItem m k slot =
        (.error (.invalidArgument "Module and Key are required to get an item."), slot) := by
      unfold getItem
      rw [if_pos h0]
    refine ⟨⟨fun _ => hor, fun _ => by rw [he]⟩, by rw [he],
      fun hm hk => absurd hor (by simp [hm, hk]),
      fun hm hk => absurd hor (by simp [hm, hk])⟩
  · have hand : ¬(m = "" ∨ k = "") := by simpa using h0
    have he : getItem m k slot =
        (.ok (match objGet (getStore slot) m with
              | some (.obj mm) => objGet mm k
              | _ => none), slot) := by
      unfold getItem
      rw [if_neg h0]
    refine ⟨⟨fun hc => ?_, fun hor => absurd hor hand⟩, by rw [he], ?_, ?_⟩
    · rw [he] at hc
      exact absurd hc (by simp)
    · intro _ _ mm hmm
      rw [he]
      simp only [hmm]
    · intro _ _ hmm
      rw [he]
      simp only [hmm]

/-- Witness for C8 at a present module and key. -/
theorem C8_witness :
    (getItem "machine" "x" (some "\x7b\"machine\":\x7b\"x\":5\x7d\x7d")).1 = .ok (some (.num 5)) := by
  have h := (C8_getItem_spec "machine" "x" (some "\x7b\"machine\":\x7b\"x\":5\x7d\x7d")).2.2.1
    (by decide) (by decide) [("x", JVal.num 5)] rfl
  rw [h]
  rfl

/-- C3: `loadDataFromJson` fails with a `Parse` error on syntactically invalid
JSON and with a `Format` error when the root is not a plain object, leaving
the store exactly as it was in both cases; on a valid JSON object it replaces
the entire store with the parsed object (a full replace, not a merge). -/
theorem C3_loadDataFromJson_spec (content : String) (slot : Slot) (writeOk : Bool) :
    (parseJson content = none →
      loadDataFromJson true writeOk (some content) slot = (.error .parseErr, slot)) ∧
    (∀ j, parseJson content = some j → (∀ kvs, j ≠ .obj kvs) →
      loadDataFromJson true writeOk (some content) slot = (.error .formatErr, slot)) ∧
    (∀ kvs, parseJson content = some (.obj kvs) →
      loadDataFromJson true true (some content) slot =
        (.ok (), some (stringifyCompact (.obj kvs))) ∧
      getAllItems (loadDataFromJson true true (some content) slot).2 = kvs) := by
  refine ⟨?_, ?_, ?_⟩
  · intro hp
    unfold loadDataFromJson
    simp only [hp, if_true]
  · intro j hp hobj
    unfold loadDataFromJson
    simp only [hp, if_true]
  · intro kvs hp
    unfold loadDataFromJson
    simp only [hp, if_true]
    exact ⟨rfl, getStore_stringifyCompact kvs⟩

/-- Witness for C3: importing the array `[1,2,3]` fails with a `Format` error
and leaves the prior store untouched (and a valid object import replaces). -/
theorem C3_witness :
    loadDataFromJson true true (some "[1,2,3]") (some "\x7b\"m\":\x7b\"k\":1\x7d\x7d") =
      (.error .formatErr, some "\x7b\"m\":\x7b\"k\":1\x7d\x7d") ∧
    getAllItems (loadDataFromJson true true (some "\x7b\"a\":\x7b\"b\":2\x7d\x7d")
      (some "\x7b\"m\":\x7b\"k\":1\x7d\x7d")).2 = [("a", .obj [("b", .num 2)])] := by
  refine ⟨?_, ?_⟩
  · exact (C3_loadDataFromJson_spec "[1,2,3]" (some "\x7b\"m\":\x7b\"k\":1\x7d\x7d") true).2.1
      (.arr [.num 1, .num 2, .num 3]) rfl (fun kvs hk => JVal.noConfusion hk)
  · exact ((C3_loadDataFromJson_spec "\x7b\"a\":\x7b\"b\":2\x7d\x7d" (some "\x7b\"m\":\x7b\"k\":1\x7d\x7d") true).2.2
      [("a", .obj [("b", .num 2)])] rfl).2

/-- C4: for nonempty module and key, `setItem` creates the module mapping if
absent and binds the key to the value, unconditionally overwriting any prior
value at that key while leaving every other binding unchanged; it fails with
`InvalidArgument` on an empty module or key, leaving the store unchanged; and
a rejected persistence write propagates as the storage-full error. -/
theorem C4_setItem_spec (w : Bool) (m k : String) (v : JVal) (slot : Slot) :
    ((m = "" ∨ k = "") →
      setItem w m k v slot =
        (.error (.invalidArgument "Module and Key are required."), slot)) ∧
    (m ≠ "" → k ≠ "" →
      (objGet (getStore slot) m = none ∨
        (∃ mm, objGet (getStore slot) m = some (.obj mm))) →
      setItem false m k v slot = (.error .storageFull, slot) ∧
      (setItem true m k v slot).1 = .ok () ∧
      (∃ mm', objGet (getStore (setItem true m k v slot).2) m = some (.obj mm') ∧
        objGet mm' k = some v ∧
        (∀ k', k' ≠ k → objGet mm' k' =
          (match objGet (getStore slot) m with
           | some (.obj mm) => objGet mm k'
           | _ => none)) ∧
        (∀ m', m' ≠ m →
          objGet (getStore (setItem true m k v slot).2) m' =
            objGet (getStore slot) m'))) := by
  constructor
  · intro hor
    unfold setItem
    rw [if_pos (by simpa using hor)]
  · intro hm hk hmod
    have h0 : ¬((decide (m = "") || decide (k = "")) = true) := by simp [hm, hk]
    rcases hmod with hnone | ⟨mm, hsome⟩
    · have hw : ∀ w', setItem w' m k v slot =
          finishSave w' slot (objSet (getStore slot) m (.obj [(k, v)])) := by
        intro w'
        unfold setItem
        rw [if_neg h0]
        simp only [hnone]
      refine ⟨by rw [hw false, finishSave_false], by rw [hw true, finishSave_true], ?_⟩
      refine ⟨[(k, v)], ?_, ?_, ?_, ?_⟩
      · rw [hw true, getStore_finishSave_true, objGet_objSet_self]
      · simp [objGet]
      · intro k' hk'
        simp only [hnone, objGet, if_neg (fun e : k = k' => hk' e.symm)]
      · intro m' hm'
        rw [hw true, getStore_finishSave_true, objGet_objSet_ne _ _ _ _ hm']
    · have hw : ∀ w', setItem w' m k v slot =
          finishSave w' slot (objSet (getStore slot) m (.obj (objSet mm k v))) := by
        intro w'
        unfold setItem
        rw [if_neg h0]
        simp only [hsome, jsTruthy, if_true]
      refine ⟨by rw [hw false, finishSave_false], by rw [hw true, finishSave_true], ?_⟩
      refine ⟨objSet mm k v, ?_, objGet_objSet_self mm k v, ?_, ?_⟩
      · rw [hw true, getStore_finishSave_true, objGet_objSet_self]
      · intro k' hk'
        simp only [hsome, objGet_objSet_ne mm k k' v hk']
      · intro m' hm'
        rw [hw true, getStore_finishSave_true, objGet_objSet_ne _ _ _ _ hm']

/-- Witness for C4: setting into an empty store, then overwriting. -/
theorem C4_witness :
    setItem false "machine" "x" (JVal.num 200) none = (.error .storageFull, none) ∧
    (setItem true "machine" "x" (JVal.num 200) none).2 =
      some "\x7b\"machine\":\x7b\"x\":200\x7d\x7d" := by
  have h := (C4_setItem_spec true "machine" "x" (JVal.num 200) none).2
    (by decide) (by decide) (Or.inl rfl)
  have h' := (C4_setItem_spec false "machine" "x" (JVal.num 200) none).2
    (by decide) (by decide) (Or.inl rfl)
  exact ⟨h'.1, rfl⟩

/-- C7: for nonempty module and key, `deleteItem` removes the key from the
module when present and removes the module entirely when it thereby becomes
empty; when the module or key does not exist the call is a no-op without an
error and without touching storage; and it fails with `InvalidArgument` on an
empty module or key. -/
theorem C7_deleteItem_spec (w : Bool) (m k : String) (slot : Slot) :
    ((m = "" ∨ k = "") →
      deleteItem w m k slot =
        (.error (.invalidArgument "Module and Key are required to delete an item."), slot)) ∧
    (m ≠ "" → k ≠ "" → objGet (getStore slot) m = none →
      deleteItem w m k slot = (.ok (), slot)) ∧
    (m ≠ "" → k ≠ "" → ∀ mm, objGet (getStore slot) m = some (.obj mm) →
      objGet mm k = none → deleteItem w m k slot = (.ok (), slot)) ∧
    (m ≠ "" → k ≠ "" → NodupKeys (getStore slot) →
      ∀ mm v0, objGet (getStore slot) m = some (.obj mm) → NodupKeys mm →
        objGet mm k = some v0 →
        deleteItem false m k slot = (.error .storageFull, slot) ∧
        (deleteItem true m k slot).1 = .ok () ∧
        (objDel mm k = [] → objGet (getStore (deleteItem true m k slot).2) m = none) ∧
        (objDel mm k ≠ [] →
          objGet (getStore (deleteItem true m k slot).2) m = some (.obj (objDel mm k))) ∧
        (∀ mm', objGet (getStore (deleteItem true m k slot).2) m = some (.obj mm') →
          objGet mm' k = none) ∧
        (∀ m', m' ≠ m →
          objGet (getStore (deleteItem true m k slot).2) m' =
            objGet (getStore slot) m')) := by
  refine ⟨?_, ?_, ?_, ?_⟩
  · intro hor
    unfold deleteItem
    rw [if_pos (by simpa using hor)]
  · intro hm hk hnone
    unfold deleteItem
    rw [if_neg (show ¬((decide (m = "") || decide (k = "")) = true) by simp [hm, hk])]
    simp only [hnone]
  · intro hm hk mm hsome hkk
    unfold deleteItem
    rw [if_neg (show ¬((decide (m = "") || decide (k = "")) = true) by simp [hm, hk])]
    simp only [hsome, hkk, Option.isSome_none, Bool.false_eq_true, if_false]
  · intro hm hk hndS mm v0 hsome hndm hkk
    have h0 : ¬((decide (m = "") || decide (k = "")) = true) := by simp [hm, hk]
    by_cases hdel : objDel mm k = []
    · have hw : ∀ w', deleteItem w' m k slot = finishSave w' slot (objDel (getStore slot) m) := by
        intro w'
        unfold deleteItem
        rw [if_neg h0]
        simp only [hsome, hkk, Option.isSome_some, if_true, hdel]
        simp
      refine ⟨by rw [hw false, finishSave_false], by rw [hw true, finishSave_true],
        ?_, fun hc => absurd hdel hc, ?_, ?_⟩
      · intro _
        rw [hw true, getStore_finishSave_true, objGet_objDel_self _ _ hndS]
      · intro mm' hmm'
        rw [hw true, getStore_finishSave_true, objGet_objDel_self _ _ hndS] at hmm'
        exact absurd hmm' (by simp)
      · intro m' hm'
        rw [hw true, getStore_finishSave_true, objGet_objDel_ne _ _ _ hm']
    · have hlen : ¬((objDel mm k).length = 0) := by
        intro hc
        exact hdel (List.length_eq_zero.mp hc)
      have hw : ∀ w', deleteItem w' m k slot =
          finishSave w' slot (objSet (getStore slot) m (.obj (objDel mm k))) := by
        intro w'
        unfold deleteItem
        rw [if_neg h0]
        simp only [hsome, hkk, Option.isSome_some, if_true, hlen, if_false]
      refine ⟨by rw [hw false, finishSave_false], by rw [hw true, finishSave_true],
        fun hc => absurd hc hdel, ?_, ?_, ?_⟩
      · intro _
        rw [hw true, getStore_finishSave_true, objGet_objSet_self]
      · intro mm' hmm'
        rw [hw true, getStore_finishSave_true, objGet_objSet_self] at hmm'
        have : objDel mm k = mm' := by
          have := (Option.some.injEq _ _).mp hmm'
          exact (JVal.obj.injEq _ _).mp this
        rw [← this]
        exact objGet_objDel_self mm k hndm
      · intro m' hm'
        rw [hw true, getStore_finishSave_true, objGet_objSet_ne _ _ _ _ hm']

/-- Witness for C7: deleting the only key prunes the module; deleting one of
two keys keeps the module. -/
theorem C7_witness :
    (deleteItem true "m" "k" (some "\x7b\"m\":\x7b\"k\":1\x7d\x7d")).2 = some "\x7b\x7d" ∧
    deleteItem true "m" "z" (some "\x7b\"m\":\x7b\"k\":1\x7d\x7d") =
      (.ok (), some "\x7b\"m\":\x7b\"k\":1\x7d\x7d") := by
  have h := (C7_deleteItem_spec true "m" "k" (some "\x7b\"m\":\x7b\"k\":1\x7d\x7d")).2.2.2
    (by decide) (by decide) (by unfold NodupKeys keysOf; decide) [("k", JVal.num 1)]
    (JVal.num 1) rfl (by unfold NodupKeys keysOf; decide) rfl
  have h2 := (C7_deleteItem_spec true "m" "z" (some "\x7b\"m\":\x7b\"k\":1\x7d\x7d")).2.2.1
    (by decide) (by decide) [("k", JVal.num 1)] rfl rfl
  exact ⟨rfl, h2⟩

/-- What `getExportableJson` produces, for a store whose `_schema` entry is
absent or a mapping: the export is the pretty-printed store with `_schema`
first (its value run through the `labels` defaulting) and no change to the
slot. -/
theorem exportSpec (slot : Slot)
    (hschema : objGet (getStore slot) "_schema" = none ∨
      ∃ skvs, objGet (getStore slot) "_schema" = some (.obj skvs)) :
    ∃ schemaOut,
      getExportableJson slot =
        (.ok (stringifyPretty2 (.obj (("_schema", .obj schemaOut) ::
          objDel (getStore slot) "_schema")), "datastore.json"), slot) ∧
      (objGet (getStore slot) "_schema" = none → schemaOut = [("labels", defaultLabels)]) ∧
      (∀ skvs, objGet (getStore slot) "_schema" = some (.obj skvs) →
        schemaOut = fixLabels skvs) := by
  rcases hschema with hnone | ⟨skvs, hs⟩
  · refine ⟨[("labels", defaultLabels)], ?_, fun _ => rfl, fun skvs hc => ?_⟩
    · unfold getExportableJson
      simp only [hnone]
      rfl
    · rw [hnone] at hc
      exact Option.noConfusion hc
  · refine ⟨fixLabels skvs, ?_, fun hc => ?_, fun skvs' hc => ?_⟩
    · unfold getExportableJson
      simp only [hs, jsTruthy, if_true]
      rfl
    · rw [hs] at hc
      exact Option.noConfusion hc
    · rw [hs] at hc
      have h1 : JVal.obj skvs = JVal.obj skvs' := (Option.some.injEq _ _).mp hc
      have h2 : skvs = skvs' := (JVal.obj.injEq _ _).mp h1
      rw [← h2]

/-- C6: for every store state whose `_schema` entry is absent or a mapping,
`getExportableJson` returns a 2-space pretty-printed JSON payload whose
top-level keys place `_schema` first followed by the remaining modules in
their stored order, with `_schema.labels` defaulted when the store has no
labels, together with the fixed suggested filename `datastore.json`, and it
performs no mutation of the persisted store state. -/
theorem C6_getExportableJson_spec (slot : Slot)
    (hschema : objGet (getStore slot) "_schema" = none ∨
      ∃ skvs, objGet (getStore slot) "_schema" = some (.obj skvs)) :
    ∃ schemaOut,
      getExportableJson slot =
        (.ok (stringifyPretty2 (.obj (("_schema", .obj schemaOut) ::
          objDel (getStore slot) "_schema")), "datastore.json"), slot) ∧
      parseJson (stringifyPretty2 (.obj (("_schema", .obj schemaOut) ::
        objDel (getStore slot) "_schema"))) =
        some (.obj (("_schema", .obj schemaOut) :: objDel (getStore slot) "_schema")) ∧
      (∀ k, k ≠ "_schema" →
        objGet (objDel (getStore slot) "_schema") k = objGet (getStore slot) k) ∧
      (objGet (getStore slot) "_schema" = none → schemaOut = [("labels", defaultLabels)]) ∧
      (∀ skvs, objGet (getStore slot) "_schema" = some (.obj skvs) →
        (objGet skvs "labels" = none → schemaOut = objSet skvs "labels" defaultLabels) ∧
        (∀ lv, objGet skvs "labels" = some lv → jsTruthy lv = true → schemaOut = skvs)) := by
  obtain ⟨schemaOut, h1, h2, h3⟩ := exportSpec slot hschema
  refine ⟨schemaOut, h1, parseJson_stringifyPretty2 _, ?_, h2, ?_⟩
  · intro k hk
    exact objGet_objDel_ne _ _ _ hk
  · intro skvs hs
    have hfix := h3 skvs hs
    constructor
    · intro hln
      rw [hfix]
      unfold fixLabels
      simp only [hln]
    · intro lv hls htr
      rw [hfix]
      unfold fixLabels
      simp only [hls, htr, if_true]

/-- Witness for C6: exporting the empty store. -/
theorem C6_witness :
    getExportableJson none =
      (.ok (stringifyPretty2 (.obj [("_schema", .obj [("labels", defaultLabels)])]),
        "datastore.json"), none) := by
  obtain ⟨so, h1, _, _, h4, _⟩ := C6_getExportableJson_spec none (Or.inl rfl)
  rw [h4 rfl] at h1
  exact h1

/-- C2 counterexample: `loadDataFromJson` is one of the public operations,
and importing an object with an empty module into the empty store succeeds and
leaves a state in which the module `m` (not `_schema`) maps to a mapping with
zero keys — an empty module does persist in a state reachable through the
public operations. -/
theorem C2_counterexample :
    (loadDataFromJson true true (some "\x7b\"m\":\x7b\x7d\x7d") none).1 = .ok () ∧
    objGet (getAllItems (loadDataFromJson true true (some "\x7b\"m\":\x7b\x7d\x7d") none).2) "m" =
      some (.obj []) ∧
    "m" ≠ "_schema" := ⟨rfl, rfl, by decide⟩

/-- C2 (amended): in every store state reachable through `setItem`,
`deleteItem` and `clearAllItems` (with `loadDataFromJson` excluded, since
an import can persist an empty module), no module entry other than `_schema` maps
to a mapping with zero keys; and for any module `m` with exactly one key `k`,
`setItem(m,k,v)` followed by `deleteItem(m,k)` leaves `getAllItems()` with no
entry for `m`. -/
theorem C2_amended_empty_module_pruning : ∀ s : Slot, ReachSDC s →
    (∀ k v, k ≠ "_schema" → objGet (getAllItems s) k = some v → v ≠ .obj []) ∧
    (∀ m k v v0, m ≠ "" → k ≠ "" →
      objGet (getAllItems s) m = some (.obj [(k, v0)]) →
      objGet (getAllItems (deleteItem true m k (setItem true m k v s).2).2) m = none) := by
  intro s hs
  have hG := reachSDC_good s hs
  constructor
  · intro k v _ hget hempty
    obtain ⟨mm, rfl, hne, _⟩ := hG.2 k v hget
    exact hne ((JVal.obj.injEq _ _).mp hempty)
  · intro m k v v0 hm hk hone
    have hone' : objGet (getStore s) m = some (.obj [(k, v0)]) := hone
    have h0 : ¬((decide (m = "") || decide (k = "")) = true) := by simp [hm, hk]
    have hset : setItem true m k v s =
        finishSave true s (objSet (getStore s) m (.obj (objSet [(k, v0)] k v))) := by
      unfold setItem
      rw [if_neg h0]
      simp only [hone', jsTruthy, if_true]
    have hsimp : objSet [(k, v0)] k v = [(k, v)] := by simp [objSet]
    have hs1 : getStore (setItem true m k v s).2 =
        objSet (getStore s) m (.obj [(k, v)]) := by
      rw [hset, hsimp, getStore_finishSave_true]
    have hget1 : objGet (getStore (setItem true m k v s).2) m = some (.obj [(k, v)]) := by
      rw [hs1, objGet_objSet_self]
    have hdel : deleteItem true m k (setItem true m k v s).2 =
        finishSave true (setItem true m k v s).2
          (objDel (getStore (setItem true m k v s).2) m) := by
      unfold deleteItem
      rw [if_neg h0]
      simp only [hget1]
      simp [objGet, objDel]
    have hfin : getAllItems (deleteItem true m k (setItem true m k v s).2).2 =
        objDel (getStore (setItem true m k v s).2) m := by
      rw [hdel]
      exact getStore_finishSave_true _ _
    rw [hfin]
    refine objGet_objDel_self _ m ?_
    rw [hs1]
    exact nodupKeys_objSet _ m _ hG.1

/-- Witness for C2 (amended), at a concrete reachable one-key module. -/
theorem C2_witness :
    objGet (getAllItems (deleteItem true "a" "b"
      ((setItem true "a" "b" (JVal.num 1)
        ((setItem true "a" "b" (JVal.num 1) none).2)).2)).2) "a" = none :=
  (C2_amended_empty_module_pruning _
    (ReachSDC.set true "a" "b" (JVal.num 1) ReachSDC.init)).2 "a" "b" (JVal.num 1)
    (JVal.num 1) (by decide) (by decide) rfl

/-- C1 counterexample: the state `S` reached by `setItem("_schema","x",1)` from
the empty store is reachable via `setItem`/`deleteItem` and has `_schema`
present (`{"x":1}`), so the claim requires the round trip to reproduce `S`
exactly; but the exported bytes carry `_schema` with the default `labels`
appended, and importing them back yields a `_schema` entry different from the
one in `S`. -/
theorem C1_counterexample :
    ReachSD ((setItem true "_schema" "x" (JVal.num 1) none).2) ∧
    objGet (getAllItems ((setItem true "_schema" "x" (JVal.num 1) none).2)) "_schema" =
      some (.obj [("x", JVal.num 1)]) ∧
    (getExportableJson ((setItem true "_schema" "x" (JVal.num 1) none).2)).1 =
      .ok (stringifyPretty2 (.obj [("_schema",
        .obj [("x", JVal.num 1), ("labels", defaultLabels)])]), "datastore.json") ∧
    objGet (getAllItems (loadDataFromJson true true
      (some (stringifyPretty2 (.obj [("_schema",
        .obj [("x", JVal.num 1), ("labels", defaultLabels)])])))
      ((setItem true "_schema" "x" (JVal.num 1) none).2)).2) "_schema" =
      some (.obj [("x", JVal.num 1), ("labels", defaultLabels)]) ∧
    some (JVal.obj [("x", JVal.num 1), ("labels", defaultLabels)]) ≠
      some (JVal.obj [("x", JVal.num 1)]) := by
  refine ⟨ReachSD.set true "_schema" "x" (JVal.num 1) ReachSD.init, rfl, rfl, rfl, ?_⟩
  intro h
  have h1 := (Option.some.injEq _ _).mp h
  have h2 := (JVal.obj.injEq _ _).mp h1
  exact List.noConfusion ((List.cons.injEq _ _ _ _).mp h2).2

/-- C1 (amended): for every store state `S` reachable from the empty store via
`setItem`/`deleteItem` calls, feeding the bytes produced by `getExportableJson`
back through `loadDataFromJson` yields a store observationally equal to `S` on
every module other than `_schema`, while `_schema` becomes the exported
schema: the default labels object if `_schema` was absent in `S`; `S`'s
`_schema` unchanged if it already had a truthy `labels` entry; and `S`'s
`_schema` with the default `labels` added if it lacked one. -/
theorem C1_amended_roundtrip : ∀ s : Slot, ReachSD s →
    ∃ json schemaOut,
      getExportableJson s = (.ok (json, "datastore.json"), s) ∧
      (loadDataFromJson true true (some json) s).1 = .ok () ∧
      (∀ k, k ≠ "_schema" →
        objGet (getAllItems (loadDataFromJson true true (some json) s).2) k =
          objGet (getAllItems s) k) ∧
      objGet (getAllItems (loadDataFromJson true true (some json) s).2) "_schema" =
        some (.obj schemaOut) ∧
      (objGet (getAllItems s) "_schema" = none → schemaOut = [("labels", defaultLabels)]) ∧
      (∀ skvs lv, objGet (getAllItems s) "_schema" = some (.obj skvs) →
        objGet skvs "labels" = some lv → jsTruthy lv = true → schemaOut = skvs) ∧
      (∀ skvs, objGet (getAllItems s) "_schema" = some (.obj skvs) →
        objGet skvs "labels" = none →
        schemaOut = objSet skvs "labels" defaultLabels) := by
  intro s hs
  have hG := reachSD_good s hs
  have hschema : objGet (getStore s) "_schema" = none ∨
      ∃ skvs, objGet (getStore s) "_schema" = some (.obj skvs) := by
    rcases hx : objGet (getStore s) "_schema" with _ | v
    · exact Or.inl rfl
    · obtain ⟨mm, rfl, _, _⟩ := hG.2 _ _ hx
      exact Or.inr ⟨mm, rfl⟩
  obtain ⟨schemaOut, h1, h2, h3⟩ := exportSpec s hschema
  have hload : loadDataFromJson true true
      (some (stringifyPretty2 (.obj (("_schema", .obj schemaOut) ::
        objDel (getStore s) "_schema")))) s =
      (.ok (), some (stringifyCompact (.obj (("_schema", .obj schemaOut) ::
        objDel (getStore s) "_schema")))) := by
    unfold loadDataFromJson
    simp only [parseJson_stringifyPretty2, if_true]
    rfl
  refine ⟨stringifyPretty2 (.obj (("_schema", .obj schemaOut) ::
    objDel (getStore s) "_schema")), schemaOut, h1, by rw [hload], ?_, ?_, h2, ?_, ?_⟩
  · intro k hk
    show objGet (getStore (loadDataFromJson true true _ s).2) k = objGet (getStore s) k
    rw [hload]
    show objGet (getStore (some (stringifyCompact _))) k = _
    rw [getStore_stringifyCompact]
    simp only [objGet, if_neg (fun e : "_schema" = k => hk e.symm)]
    exact objGet_objDel_ne _ _ _ hk
  · show objGet (getStore (loadDataFromJson true true _ s).2) "_schema" = _
    rw [hload]
    show objGet (getStore (some (stringifyCompact _))) "_schema" = _
    rw [getStore_stringifyCompact]
    simp [objGet]
  · intro skvs lv hsk hls htr
    rw [h3 skvs hsk]
    unfold fixLabels
    simp only [hls, htr, if_true]
  · intro skvs hsk hls
    rw [h3 skvs hsk]
    unfold fixLabels
    simp only [hls]

/-- Witness for C1 (amended): round-tripping the empty store yields the
defaulted `_schema`. -/
theorem C1_witness :
    objGet (getAllItems (loadDataFromJson true true
      (some (stringifyPretty2 (.obj [("_schema", .obj [("labels", defaultLabels)])])))
      none).2) "_schema" = some (.obj [("labels", defaultLabels)]) := by
  obtain ⟨json, so, h1, _, _, hlook, hnone, _, _⟩ := C1_amended_roundtrip none ReachSD.init
  have he : getExportableJson none =
      (.ok (stringifyPretty2 (.obj [("_schema", .obj [("labels", defaultLabels)])]),
        "datastore.json"), none) := rfl
  rw [h1] at he
  simp only [Prod.mk.injEq, Except.ok.injEq] at he
  have hjson := he.1.1
  rw [hjson] at hlook
  rw [hnone rfl] at hlook
  exact hlook
